import Mathlib

/-!
Verification of the `sql-inspector` extraction core (`src/lib.rs`).

The Rust code walks an already-parsed SQL syntax tree (produced by the
external `sqlparser` crate) with a `Visitor` `V` holding mutable
`HashSet`s of column and table strings, a `HashMap` of aliases, a target
table and a query-type tag, and then assembles a sorted `ExtractResult`.

Shallow embedding conventions:
* Identifiers are modelled unquoted, by their `value` string; for an
  unquoted `Ident` the Rust `Display` output equals its `value`, so both
  `ident.to_string()` and `ident.value` embed to the same `String`.
* `HashSet<String>` is modelled as a duplicate-free `List String`
  (`insertStr` inserts only when absent); `HashMap<String,String>` as an
  association list where `insert` prepends and lookup takes the first hit,
  which matches the overwrite semantics of `HashMap::insert`.
* The panicking operations of the walk (`tables[0]` in the `Delete` arm,
  `relation.0[0]` in `pre_visit_relation`, `ident.first().unwrap()` /
  `ident.last().unwrap()` in the `Update` arm, and the
  `Parser::parse_sql(..).unwrap()` at the entry point) are modelled by a
  sticky `panicked` flag / a `RunOutcome.panicked` outcome.
* `UPDATE` targets and the entries of a `DELETE ... FROM` list are
  modelled as single table factors (a `TableWithJoins` whose `joins`
  vector is empty); the `Display` of such a `TableWithJoins` is the
  `Display` of its factor.
-/

namespace SqlInspector

/-- `QueryType` from `src/lib.rs`: the classification tag, `SELECT` being
the `#[default]` variant. -/
inductive QueryType where
  | SELECT
  | INSERT
  | UPDATE
  | DELETE
deriving DecidableEq, Repr

/-- `ObjectName(Vec<Ident>)`: a possibly multi-part dotted name, each part
modelled by its identifier value. -/
abbrev ObjectName := List String

/-- Embeds both the Rust helper `join(arr: &[Ident])` (push `'.'` between
the rendered parts) and the compound-identifier builder inside
`pre_visit_expr` (push each `value` and a `'.'`, then pop the trailing
dot): for unquoted identifiers both produce the parts joined by `"."`,
and the empty list gives `""`. -/
def dotJoin : List String → String
  | [] => ""
  | [x] => x
  | x :: y :: rest => x ++ "." ++ dotJoin (y :: rest)

/-- `Display` for `ObjectName`: parts joined by `"."`. -/
def ObjectName.render (n : ObjectName) : String := dotJoin n

/-- `Expr`: the expression fragment the visitor distinguishes.
`Identifier`, `CompoundIdentifier` and `Wildcard` are the variants
matched by `pre_visit_expr`; `BinaryOp` stands for the composite
expressions the generic walk recurses into; `Value` stands for the
remaining leaf variants (literals etc.), which contribute nothing. -/
inductive Expr where
  | Identifier (value : String)
  | CompoundIdentifier (parts : List String)
  | Wildcard
  | BinaryOp (lhs rhs : Expr)
  | Value
deriving DecidableEq, Repr

/-- `TableFactor::Table { name, alias, .. }`: the only factor variant the
visitor matches. -/
structure TableFactorT where
  name : ObjectName
  tableAlias : Option String
deriving DecidableEq, Repr

/-- `Display` for `TableFactor::Table`: the name, then `" AS <alias>"`
when an alias is present. -/
def TableFactorT.render (t : TableFactorT) : String :=
  ObjectName.render t.name ++
    (match t.tableAlias with
     | none => ""
     | some a => " AS " ++ a)

/-- A `Join`: its relation plus the expression of an `ON` constraint when
there is one (other constraints carry no expression). -/
structure Join where
  relation : TableFactorT
  onExpr : Option Expr
deriving DecidableEq, Repr

/-- `TableWithJoins`. -/
structure TableWithJoins where
  relation : TableFactorT
  joins : List Join
deriving DecidableEq, Repr

/-- `SelectItem`: the three variants `pre_visit_statement` matches
(`UnnamedExpr`, `ExprWithAlias`, `Wildcard`). -/
inductive SelectItem where
  | UnnamedExpr (e : Expr)
  | ExprWithAlias (e : Expr) (itemAlias : String)
  | Wildcard
deriving DecidableEq, Repr

/-- The `Select` fields the walk touches: projection, FROM list,
selection, visited in that (field) order. -/
structure Select where
  projection : List SelectItem
  fromClause : List TableWithJoins
  selection : Option Expr
deriving DecidableEq, Repr

/-- `SetExpr`: a plain `SELECT` body, or any other set expression
(modelled as a leaf: the statement arm only matches `SetExpr::Select`). -/
inductive SetExpr where
  | Select (sel : Select)
  | Other
deriving DecidableEq, Repr

/-- `Query`. -/
structure Query where
  body : SetExpr
deriving DecidableEq, Repr

/-- `FromTable` of a `Delete`: the table list with or without the `FROM`
keyword; each entry modelled as a single table factor. -/
inductive FromTable where
  | WithFromKeyword (tables : List TableFactorT)
  | WithoutKeyword (tables : List TableFactorT)
deriving DecidableEq, Repr

/-- `AssignmentTarget` of an `UPDATE` assignment. -/
inductive AssignmentTarget where
  | ColumnName (name : ObjectName)
  | Tuple (names : List ObjectName)
deriving DecidableEq, Repr

/-- An `UPDATE` `Assignment { target, value }`. -/
structure Assignment where
  target : AssignmentTarget
  value : Expr
deriving DecidableEq, Repr

/-- `Statement`: the four classified variants plus `Other` for every
unrecognized statement kind. An unrecognized statement's children are
still walked by the generic visitor machinery: its expression children
through `pre_visit_expr`, and — for variants such as `Explain` or
`Prepare` that wrap further statements — its nested statement children
through `pre_visit_statement` itself, which re-triggers the
classification arms on them. -/
inductive Statement where
  | Query (q : Query)
  | Insert (tableName : ObjectName) (columns : List String) (source : Option Query)
  | Update (table : TableFactorT) (assignments : List Assignment)
      (fromClause : Option TableWithJoins) (selection : Option Expr)
  | Delete (fromClause : FromTable) (selection : Option Expr)
  | Other (children : List Expr) (nested : List Statement)
deriving Repr

/-- The visitor state `V`, plus a sticky `panicked` flag modelling the
places where the Rust code would panic mid-walk. -/
structure V where
  columns : List String := []
  tables : List String := []
  aliases : List (String × String) := []
  target_table : String := ""
  query_type : QueryType := .SELECT
  panicked : Bool := false
deriving DecidableEq, Repr

/-- `HashSet::insert`: add the string only when it is not yet present. -/
def insertStr (l : List String) (x : String) : List String :=
  if x ∈ l then l else x :: l

def V.addColumn (s : V) (c : String) : V := { s with columns := insertStr s.columns c }

def V.addTable (s : V) (t : String) : V := { s with tables := insertStr s.tables t }

/-- `HashMap::insert`: a later binding for the same alias overwrites the
earlier one, modelled by prepending together with first-hit lookup. -/
def V.addAlias (s : V) (a t : String) : V := { s with aliases := (a, t) :: s.aliases }

/-- `HashMap::get`. -/
def lookupAlias (m : List (String × String)) (k : String) : Option String :=
  match m.find? (fun p => p.1 == k) with
  | some p => some p.2
  | none => none

/-- `pre_visit_expr`: wildcards contribute `"*"`, identifiers their
value, compound identifiers all parts joined by `"."`; then the generic
walk recurses into sub-expressions. -/
def visitExpr (s : V) : Expr → V
  | .Identifier v => s.addColumn v
  | .CompoundIdentifier parts => s.addColumn (dotJoin parts)
  | .Wildcard => s.addColumn "*"
  | .BinaryOp l r => visitExpr (visitExpr s l) r
  | .Value => s

def visitOptExpr (s : V) : Option Expr → V
  | some e => visitExpr s e
  | none => s

/-- `pre_visit_relation`: reads `relation.0[0].value`, which panics when
the object name has no parts. -/
def visitRelation (s : V) (n : ObjectName) : V :=
  match n with
  | [] => { s with panicked := true }
  | x :: _ => s.addTable x

/-- `pre_visit_table_factor`: registers the rendered name, records the
alias when present; afterwards the factor's name is visited as a
relation by the generic walk. -/
def visitTableFactor (s : V) (tf : TableFactorT) : V :=
  let tn := ObjectName.render tf.name
  let s1 := s.addTable tn
  let s2 := match tf.tableAlias with
    | some a => s1.addAlias a tn
    | none => s1
  visitRelation s2 tf.name

def visitJoin (s : V) (j : Join) : V :=
  visitOptExpr (visitTableFactor s j.relation) j.onExpr

def visitTableWithJoins (s : V) (tw : TableWithJoins) : V :=
  tw.joins.foldl visitJoin (visitTableFactor s tw.relation)

/-- The generic walk of a `SelectItem`: its expression, when any. -/
def visitSelectItem (s : V) : SelectItem → V
  | .UnnamedExpr e => visitExpr s e
  | .ExprWithAlias e _ => visitExpr s e
  | .Wildcard => s

def visitSelect (s : V) (sel : Select) : V :=
  visitOptExpr
    (sel.fromClause.foldl visitTableWithJoins (sel.projection.foldl visitSelectItem s))
    sel.selection

def visitSetExpr (s : V) : SetExpr → V
  | .Select sel => visitSelect s sel
  | .Other => s

def visitQuery (s : V) (q : Query) : V := visitSetExpr s q.body

/-- The projection handling of the `Statement::Query` arm of
`pre_visit_statement`: bare identifiers contribute their value, compound
identifiers the joined chain, an explicit alias is discarded, a wildcard
projection contributes `"*"`. -/
def projArm (s : V) : SelectItem → V
  | .UnnamedExpr (.Identifier v) => s.addColumn v
  | .UnnamedExpr (.CompoundIdentifier parts) => s.addColumn (dotJoin parts)
  | .UnnamedExpr _ => s
  | .ExprWithAlias (.Identifier v) _ => s.addColumn v
  | .ExprWithAlias (.CompoundIdentifier parts) _ => s.addColumn (dotJoin parts)
  | .ExprWithAlias _ _ => s
  | .Wildcard => s.addColumn "*"

/-- The `Statement::Query` arm: set the type to `SELECT` and, when the
body is a plain select, run the projection rules. -/
def queryArm (s : V) (q : Query) : V :=
  let s1 := { s with query_type := QueryType.SELECT }
  match q.body with
  | .Select sel => sel.projection.foldl projArm s1
  | .Other => s1

/-- The `Statement::Insert` arm: set the type, register the insert table
as both a table and the target, and qualify each declared column with
the table name. -/
def insertArm (s : V) (tableName : ObjectName) (cols : List String) : V :=
  let tn := ObjectName.render tableName
  let s1 := { s with query_type := QueryType.INSERT }
  let s2 := s1.addTable tn
  let s3 := { s2 with target_table := tn }
  cols.foldl (fun st c => st.addColumn (tn ++ "." ++ c)) s3

/-- The per-assignment part of the `Statement::Update` arm: a compound
right-hand value contributes `first.last` (via `first().unwrap()` /
`last().unwrap()`, panicking on an empty part list), a bare identifier
value is qualified with the target table name; a single-part column-name
target is qualified with the target table name, any other column-name
target is joined verbatim. -/
def assignArm (tn : String) (s : V) (a : Assignment) : V :=
  let s1 := match a.value with
    | .CompoundIdentifier parts =>
      match parts with
      | [] => { s with panicked := true }
      | p :: ps => s.addColumn (p ++ "." ++ ps.getLastD p)
    | .Identifier v => s.addColumn (tn ++ "." ++ v)
    | _ => s
  match a.target with
  | .ColumnName name =>
    match name with
    | [c] => s1.addColumn (tn ++ "." ++ c)
    | _ => s1.addColumn (dotJoin name)
  | .Tuple _ => s1

/-- The `Statement::Update` arm: set the type and the target to the
rendered table, run the assignment rules, then register the table. -/
def updateArm (s : V) (table : TableFactorT) (assignments : List Assignment) : V :=
  let tn := table.render
  let s1 := { s with query_type := QueryType.UPDATE, target_table := tn }
  let s2 := assignments.foldl (assignArm tn) s1
  s2.addTable tn

/-- The `Statement::Delete` arm: set the type; with a `FROM`-keyword
table list, `tables[0]` (panicking when empty) becomes the target and
every listed table is registered. -/
def deleteArm (s : V) (ft : FromTable) : V :=
  let s1 := { s with query_type := QueryType.DELETE }
  match ft with
  | .WithFromKeyword tables =>
    match tables with
    | [] => { s1 with panicked := true }
    | t :: ts =>
      let s2 := { s1 with target_table := t.render }
      (t :: ts).foldl (fun st x => st.addTable x.render) s2
  | .WithoutKeyword _ => s1

/-- The generic walk of an assignment: only its value expression is
visited (the target's idents trigger no visit callback). -/
def visitAssignment (s : V) (a : Assignment) : V := visitExpr s a.value

def visitOptTW (s : V) : Option TableWithJoins → V
  | some tw => visitTableWithJoins s tw
  | none => s

def visitOptQuery (s : V) : Option Query → V
  | some q => visitQuery s q
  | none => s

mutual

/-- `pre_visit_statement` followed by the generic walk of the
statement's children, in field order; an unrecognized statement's own
arm is a no-op, but its nested statement children are visited through
`pre_visit_statement` again. -/
def visitStatement (s : V) : Statement → V
  | .Query q => visitQuery (queryArm s q) q
  | .Insert name cols src =>
    visitOptQuery (visitRelation (insertArm s name cols) name) src
  | .Update table assigns fr sel =>
    let s1 := updateArm s table assigns
    let s2 := visitTableFactor s1 table
    let s3 := assigns.foldl visitAssignment s2
    visitOptExpr (visitOptTW s3 fr) sel
  | .Delete fr sel =>
    let s1 := deleteArm s fr
    let s2 := match fr with
      | .WithFromKeyword ts => ts.foldl visitTableFactor s1
      | .WithoutKeyword ts => ts.foldl visitTableFactor s1
    visitOptExpr s2 sel
  | .Other es nested => visitStatements (es.foldl visitExpr s) nested

/-- The walk of a list of statements, in order. -/
def visitStatements (s : V) : List Statement → V
  | [] => s
  | st :: rest => visitStatements (visitStatement s st) rest

end

/-- `statements.visit(&mut visitor)` over the parsed statement list,
starting from `V::default()`. -/
def runVisitor (stmts : List Statement) : V :=
  stmts.foldl visitStatement {}

/-- The text before the first `'.'` of a string:
`c.split('.').next().unwrap()`. -/
def beforeFirstDot (c : String) : String :=
  ⟨c.data.takeWhile (fun ch => ch != '.')⟩

/-- The text after the last `'.'` of a string:
`c.split('.').last().unwrap()`. -/
def afterLastDot (c : String) : String :=
  ⟨(c.data.reverse.takeWhile (fun ch => ch != '.')).reverse⟩

/-- `c.contains('.')`. -/
def containsDot (c : String) : Bool :=
  c.data.any (fun ch => ch == '.')

/-- The alias-substitution pass applied to one collected column string:
entries without a dot are skipped; otherwise, when the text before the
first dot is a recorded alias, the entry is rewritten to the canonical
table name joined with the text after the last dot. -/
def rewriteColumn (aliases : List (String × String)) (c : String) : String :=
  if containsDot c then
    match lookupAlias aliases (beforeFirstDot c) with
    | some canonical => canonical ++ "." ++ afterLastDot c
    | none => c
  else c

/-- Strict codepoint-lexicographic comparison on character lists; on
UTF-8 encoded strings this coincides with the byte-wise `Ord` used by
Rust's `Vec::sort`. -/
def lexLt : List Char → List Char → Bool
  | [], [] => false
  | [], _ :: _ => true
  | _ :: _, [] => false
  | a :: as, b :: bs => if a < b then true else if b < a then false else lexLt as bs

def strLt (a b : String) : Bool := lexLt a.data b.data

/-- The (total) `≤` used to model `Vec::<String>::sort()`. -/
def strLe (a b : String) : Bool := !(strLt b a)

def strLeP (a b : String) : Prop := strLe a b = true

instance : DecidableRel strLeP := fun a b => inferInstanceAs (Decidable (_ = true))

/-- `Vec::<String>::sort()`: sorting ascending in the lexicographic
order. -/
def sortStrings (l : List String) : List String :=
  List.insertionSort strLeP l

/-- `ExtractResult`. -/
structure ExtractResult where
  tables : List String
  columns : List String
  target_table : String
  query_type : QueryType
deriving DecidableEq, Repr

/-- The assembly tail of `inspect`, parameterized by the iteration
orders `corder` / `torder` in which the column and table hash sets are
drained into vectors: the columns are alias-rewritten in place and both
vectors are sorted. -/
def assemble (st : V) (corder torder : List String) : ExtractResult :=
  { columns := sortStrings (corder.map (rewriteColumn st.aliases))
    tables := sortStrings torder
    target_table := st.target_table
    query_type := st.query_type }

/-- The outcome of a call: either the process panicked (a `unwrap` on a
parser error, or an out-of-bounds read during the walk), or an
`ExtractResult` was produced. -/
inductive RunOutcome where
  | panicked
  | completed (r : ExtractResult)
deriving DecidableEq, Repr

/-- `inspect`, taking the outcome of `Parser::parse_sql` as input (the
parser itself is the out-of-scope upstream collaborator):
`Parser::parse_sql(..).unwrap()` panics on a parse error; otherwise the
visitor runs and the result is assembled. -/
def inspect (parsed : Except String (List Statement)) : RunOutcome :=
  match parsed with
  | .error _ => .panicked
  | .ok stmts =>
    let st := runVisitor stmts
    if st.panicked then .panicked
    else .completed (assemble st st.columns st.tables)

/-- `inspect` on a successfully parsed statement list. -/
def inspectStmts (stmts : List Statement) : RunOutcome :=
  inspect (.ok stmts)

/-- `inspect` with explicit hash-set iteration orders. -/
def inspectWithOrder (stmts : List Statement) (corder torder : List String) : RunOutcome :=
  let st := runVisitor stmts
  if st.panicked then .panicked
  else .completed (assemble st corder torder)

/-- Facts carried from a walk state `s` to any later state `t`: set
membership is monotone, duplicate-freedom of the backing lists is
preserved, and the panic flag is sticky. -/
structure Step (s t : V) : Prop where
  colMem : ∀ x, x ∈ s.columns → x ∈ t.columns
  tabMem : ∀ x, x ∈ s.tables → x ∈ t.tables
  colNodup : s.columns.Nodup → t.columns.Nodup
  tabNodup : s.tables.Nodup → t.tables.Nodup
  panic : s.panicked = true → t.panicked = true

/-- The classification fields (`query_type`, `target_table`) are written
only by the `pre_visit_statement` arms; every generic visit leaves them
unchanged. -/
structure GEq (s t : V) : Prop where
  qt : t.query_type = s.query_type
  tt : t.target_table = s.target_table

/-- The column contributed by the right-hand value of an assignment, per
the collection rules: a compound identifier contributes its first and
last parts joined by `"."`; a bare identifier is qualified with the
target table name; anything else contributes nothing. -/
def rhsContribution (tn : String) (a : Assignment) : Option String :=
  match a.value with
  | .CompoundIdentifier [] => none
  | .CompoundIdentifier (p :: ps) => some (p ++ "." ++ ps.getLastD p)
  | .Identifier v => some (tn ++ "." ++ v)
  | _ => none

/-- The column contributed by the left-hand target of an assignment: a
single-part column name is qualified with the target table name, a
multi-part (or empty) name is joined verbatim, a tuple target
contributes nothing. -/
def lhsContribution (tn : String) (a : Assignment) : Option String :=
  match a.target with
  | .ColumnName [c] => some (tn ++ "." ++ c)
  | .ColumnName parts => some (dotJoin parts)
  | .Tuple _ => none

def optAddColumn (s : V) : Option String → V
  | some c => s.addColumn c
  | none => s

/-- A visited table factor's object name must be non-empty for
`pre_visit_relation`'s `relation.0[0]` read to be in bounds. -/
def TableFactorT.wfB (tf : TableFactorT) : Bool := !tf.name.isEmpty

def Join.wfB (j : Join) : Bool := j.relation.wfB

def TableWithJoins.wfB (tw : TableWithJoins) : Bool :=
  tw.relation.wfB && tw.joins.all Join.wfB

def Select.wfB (sel : Select) : Bool := sel.fromClause.all TableWithJoins.wfB

def SetExpr.wfB : SetExpr → Bool
  | .Select sel => sel.wfB
  | .Other => true

def Query.wfB (q : Query) : Bool := q.body.wfB

/-- Non-emptiness of a `Delete`'s `FROM`-keyword table list (for the
`tables[0]` read), plus non-emptiness of its visited object names. -/
def FromTable.wfB : FromTable → Bool
  | .WithFromKeyword ts => !ts.isEmpty && ts.all TableFactorT.wfB
  | .WithoutKeyword ts => ts.all TableFactorT.wfB

def optQueryWfB : Option Query → Bool
  | some q => q.wfB
  | none => true

def optTWWfB : Option TableWithJoins → Bool
  | some tw => tw.wfB
  | none => true

mutual

/-- The precondition named by the claim: every `Delete` `FROM`-keyword
table list is non-empty and every visited object name is non-empty,
nested statements included. -/
def Statement.claimWfB : Statement → Bool
  | .Query q => q.wfB
  | .Insert name _ src => !name.isEmpty && optQueryWfB src
  | .Update table _ fr _ => table.wfB && optTWWfB fr
  | .Delete fr _ => fr.wfB
  | .Other _ nested => statementsClaimWfB nested

def statementsClaimWfB : List Statement → Bool
  | [] => true
  | st :: rest => st.claimWfB && statementsClaimWfB rest

end

/-- The additional requirement the `Update` arm imposes: each
assignment's right-hand compound identifier must have a non-empty part
list, or `ident.first().unwrap()` panics. -/
def Assignment.valueWfB (a : Assignment) : Bool :=
  match a.value with
  | .CompoundIdentifier parts => !parts.isEmpty
  | _ => true

mutual

def Statement.assignsWfB : Statement → Bool
  | .Update _ assigns _ _ => assigns.all Assignment.valueWfB
  | .Other _ nested => statementsAssignsWfB nested
  | _ => true

def statementsAssignsWfB : List Statement → Bool
  | [] => true
  | st :: rest => st.assignsWfB && statementsAssignsWfB rest

end

/-- Full wellformedness: the claim's precondition plus non-empty
compound identifiers in `Update` assignment values. -/
def Statement.wfB (st : Statement) : Bool := st.claimWfB && st.assignsWfB

def Expr.hasWildcardB : Expr → Bool
  | .Wildcard => true
  | .BinaryOp l r => l.hasWildcardB || r.hasWildcardB
  | _ => false

def optExprHasB : Option Expr → Bool
  | some e => e.hasWildcardB
  | none => false

/-- A wildcard expression under a select item (the item's own `Wildcard`
variant not included). -/
def SelectItem.exprStarB : SelectItem → Bool
  | .UnnamedExpr e => e.hasWildcardB
  | .ExprWithAlias e _ => e.hasWildcardB
  | .Wildcard => false

def SelectItem.isWildcardB : SelectItem → Bool
  | .Wildcard => true
  | _ => false

/-- A wildcard anywhere under a select item, the item's own `Wildcard`
variant included (the reading of "wildcard projection" in the spec). -/
def SelectItem.hasWildcardB : SelectItem → Bool
  | .UnnamedExpr e => e.hasWildcardB
  | .ExprWithAlias e _ => e.hasWildcardB
  | .Wildcard => true

def Join.starB (j : Join) : Bool := optExprHasB j.onExpr

def TableWithJoins.starB (tw : TableWithJoins) : Bool := tw.joins.any Join.starB

/-- Wildcard expressions in any visited expression position of a select. -/
def Select.exprStarB (sel : Select) : Bool :=
  sel.projection.any SelectItem.exprStarB || sel.fromClause.any TableWithJoins.starB ||
    optExprHasB sel.selection

/-- Wildcards anywhere in a select, projection items included. -/
def Select.hasWildcardB (sel : Select) : Bool :=
  sel.projection.any SelectItem.hasWildcardB || sel.fromClause.any TableWithJoins.starB ||
    optExprHasB sel.selection

def SetExpr.exprStarB : SetExpr → Bool
  | .Select sel => sel.exprStarB
  | .Other => false

def SetExpr.hasWildcardB : SetExpr → Bool
  | .Select sel => sel.hasWildcardB
  | .Other => false

def Query.exprStarB (q : Query) : Bool := q.body.exprStarB

def Query.hasWildcardB (q : Query) : Bool := q.body.hasWildcardB

def optQueryStarB : Option Query → Bool
  | some q => q.exprStarB
  | none => false

def optQueryHasB : Option Query → Bool
  | some q => q.hasWildcardB
  | none => false

def optTWStarB : Option TableWithJoins → Bool
  | some tw => tw.starB
  | none => false

/-- The positions from which the walk inserts a `"*"` column: a wildcard
projection item of a top-level `Query` statement's select body, or a
wildcard expression in any visited expression position. -/
def Statement.starB : Statement → Bool
  | .Query q =>
    (match q.body with
     | .Select sel => sel.projection.any SelectItem.isWildcardB
     | .Other => false) || q.exprStarB
  | .Insert _ _ src => optQueryStarB src
  | .Update _ assigns fr sel =>
    assigns.any (fun a => a.value.hasWildcardB) || optTWStarB fr || optExprHasB sel
  | .Delete _ sel => optExprHasB sel
  | .Other es _ => es.any Expr.hasWildcardB

/-- The claim's predicate: any number of wildcard projections or
wildcard expressions anywhere in the statement tree. -/
def Statement.hasWildcardB : Statement → Bool
  | .Query q => q.hasWildcardB
  | .Insert _ _ src => optQueryHasB src
  | .Update _ assigns fr sel =>
    assigns.any (fun a => a.value.hasWildcardB) || optTWStarB fr || optExprHasB sel
  | .Delete _ sel => optExprHasB sel
  | .Other es _ => es.any Expr.hasWildcardB

def c8stmt : Statement :=
  .Query ⟨.Select ⟨[], [⟨⟨["users"], none⟩, []⟩],
    some (.BinaryOp (.Identifier "b") (.Identifier "a"))⟩⟩

def c2stmt : Statement :=
  .Query ⟨.Select ⟨[], [⟨⟨["t1"], some "a"⟩, []⟩],
    some (.BinaryOp (.CompoundIdentifier ["a", "col"]) (.CompoundIdentifier ["t1", "col"]))⟩⟩

def c3stmt : Statement :=
  .Query ⟨.Select ⟨[], [⟨⟨["t1"], some "a"⟩, []⟩, ⟨⟨["a"], some "b"⟩, []⟩],
    some (.CompoundIdentifier ["b", "col"])⟩⟩

/-- The syntactically determinate write target of a statement, when any:
the declared insert table, the `UPDATE` target table, or the first table
of a `DELETE`'s `FROM`-keyword list. -/
def Statement.syntacticTarget : Statement → Option String
  | .Query _ => none
  | .Insert name _ _ => some (ObjectName.render name)
  | .Update table _ _ _ => some table.render
  | .Delete (.WithFromKeyword (t :: _)) _ => some t.render
  | .Delete _ _ => none
  | .Other _ _ => none

def c10stmt : Statement :=
  .Update ⟨["t"], none⟩ [⟨.ColumnName ["x"], .CompoundIdentifier []⟩] none none

mutual

/-- An unrecognized statement none of whose nested statement children
(recursively) is a classified (Query/Insert/Update/Delete) variant:
only for these is the classification guaranteed to stay at its
defaults, since `pre_visit_statement` fires on nested statements too. -/
def Statement.isOtherDeepB : Statement → Bool
  | .Other _ nested => statementsOtherDeepB nested
  | _ => false

def statementsOtherDeepB : List Statement → Bool
  | [] => true
  | st :: rest => st.isOtherDeepB && statementsOtherDeepB rest

end

/-- An unrecognized statement wrapping a nested `INSERT`, as the parser
produces for `EXPLAIN INSERT INTO users (id) VALUES (1)`. -/
def c9stmt : Statement :=
  .Other [] [.Insert ["users"] ["id"] none]

def c6stmt : Statement :=
  .Insert ["t2"] [] (some ⟨.Select ⟨[.Wildcard], [⟨⟨["t1"], none⟩, []⟩], none⟩⟩)

def c6stmt2 : Statement :=
  .Query ⟨.Select ⟨[.Wildcard, .UnnamedExpr .Wildcard], [⟨⟨["users"], none⟩, []⟩], none⟩⟩

theorem lexLt_irrefl : ∀ x, lexLt x x = false := by
  intro x
  induction x with
  | nil => simp [lexLt]
  | cons a as ih => simp [lexLt, ih]

theorem lexLt_asymm : ∀ x y, lexLt x y = true → lexLt y x = false := by
  intro x
  induction x with
  | nil =>
    intro y h
    cases y with
    | nil => simp [lexLt] at h
    | cons b bs => simp [lexLt]
  | cons a as ih =>
    intro y h
    cases y with
    | nil => simp [lexLt] at h
    | cons b bs =>
      simp only [lexLt] at h ⊢
      rcases lt_trichotomy a b with hab | hab | hab
      · rw [if_neg (lt_asymm hab), if_pos hab]
      · subst hab
        rw [if_neg (lt_irrefl a), if_neg (lt_irrefl a)] at h ⊢
        exact ih bs h
      · rw [if_neg (lt_asymm hab), if_pos hab] at h
        exact absurd h (by simp)

theorem lexLt_trans : ∀ x y z, lexLt x y = true → lexLt y z = true → lexLt x z = true := by
  intro x
  induction x with
  | nil =>
    intro y z hxy hyz
    cases y with
    | nil => simp [lexLt] at hxy
    | cons b bs =>
      cases z with
      | nil => simp [lexLt] at hyz
      | cons c cs => simp [lexLt]
  | cons a as ih =>
    intro y z hxy hyz
    cases y with
    | nil => simp [lexLt] at hxy
    | cons b bs =>
      cases z with
      | nil => simp [lexLt] at hyz
      | cons c cs =>
        simp only [lexLt] at hxy hyz ⊢
        rcases lt_trichotomy b c with hbc | hbc | hbc
        · rcases lt_trichotomy a b with hab | hab | hab
          · rw [if_pos (lt_trans hab hbc)]
          · subst hab; rw [if_pos hbc]
          · rw [if_neg (lt_asymm hab), if_pos hab] at hxy
            simp at hxy
        · subst hbc
          rcases lt_trichotomy a b with hab | hab | hab
          · rw [if_pos hab]
          · subst hab
            rw [if_neg (lt_irrefl a), if_neg (lt_irrefl a)] at hxy hyz ⊢
            exact ih bs cs hxy hyz
          · rw [if_neg (lt_asymm hab), if_pos hab] at hxy
            simp at hxy
        · rw [if_neg (lt_asymm hbc), if_pos hbc] at hyz
          simp at hyz

theorem lexLt_conn : ∀ x y, lexLt x y = false → lexLt y x = false → x = y := by
  intro x
  induction x with
  | nil =>
    intro y hxy _
    cases y with
    | nil => rfl
    | cons b bs => simp [lexLt] at hxy
  | cons a as ih =>
    intro y hxy hyx
    cases y with
    | nil => simp [lexLt] at hyx
    | cons b bs =>
      simp only [lexLt] at hxy hyx
      rcases lt_trichotomy a b with hab | hab | hab
      · rw [if_pos hab] at hxy
        simp at hxy
      · subst hab
        rw [if_neg (lt_irrefl a), if_neg (lt_irrefl a)] at hxy hyx
        rw [ih bs hxy hyx]
      · rw [if_pos hab] at hyx
        simp at hyx

theorem strDataInj {a b : String} (h : a.data = b.data) : a = b := by
  cases a; cases b; exact congrArg String.mk h

theorem strLeP_iff {a b : String} : strLeP a b ↔ lexLt b.data a.data = false := by
  unfold strLeP strLe strLt
  cases h : lexLt b.data a.data <;> simp

instance : IsTotal String strLeP :=
  ⟨fun a b => by
    rw [strLeP_iff, strLeP_iff]
    cases h : lexLt b.data a.data with
    | false => exact Or.inl rfl
    | true => exact Or.inr (lexLt_asymm _ _ h)⟩

instance : IsTrans String strLeP :=
  ⟨fun a b c hab hbc => by
    rw [strLeP_iff] at hab hbc ⊢
    cases h : lexLt c.data a.data with
    | false => rfl
    | true =>
      exfalso
      cases h4 : lexLt a.data b.data with
      | true =>
        have h5 := lexLt_trans _ _ _ h h4
        rw [hbc] at h5
        simp at h5
      | false =>
        have heq := lexLt_conn _ _ h4 hab
        rw [heq] at h
        rw [hbc] at h
        simp at h⟩

instance : IsAntisymm String strLeP :=
  ⟨fun a b hab hba => by
    rw [strLeP_iff] at hab hba
    exact strDataInj (lexLt_conn _ _ hba hab)⟩

theorem sortStrings_sorted (l : List String) : (sortStrings l).Sorted strLeP :=
  List.sorted_insertionSort _ _

theorem sortStrings_perm (l : List String) : List.Perm (sortStrings l) l :=
  List.perm_insertionSort _ _

theorem sortStrings_eq_of_perm {l m : List String} (h : List.Perm l m) :
    sortStrings l = sortStrings m :=
  List.eq_of_perm_of_sorted ((sortStrings_perm l).trans (h.trans (sortStrings_perm m).symm))
    (sortStrings_sorted l) (sortStrings_sorted m)

theorem mem_sortStrings {l : List String} {x : String} : x ∈ sortStrings l ↔ x ∈ l :=
  (sortStrings_perm l).mem_iff

theorem foldlPres {α : Type} (P : V → Prop) (f : V → α → V)
    (h : ∀ b a, P b → P (f b a)) : ∀ (l : List α) (b : V), P b → P (l.foldl f b) := by
  intro l
  induction l with
  | nil => intro b hb; exact hb
  | cons x xs ih => intro b hb; exact ih _ (h _ _ hb)

theorem foldlPresMem {α : Type} (P : V → Prop) (f : V → α → V) :
    ∀ (l : List α) (b : V), (∀ a ∈ l, ∀ v, P v → P (f v a)) → P b → P (l.foldl f b) := by
  intro l
  induction l with
  | nil => intro b _ hb; exact hb
  | cons x xs ih =>
    intro b h hb
    exact ih _ (fun a ha => h a (List.mem_cons_of_mem _ ha))
      (h x (List.mem_cons_self _ _) _ hb)

theorem foldlAttain {α : Type} (P : V → Prop) (f : V → α → V)
    (hpres : ∀ b a, P b → P (f b a)) :
    ∀ (l : List α) (x : α), x ∈ l → (∀ b, P (f b x)) → ∀ b, P (l.foldl f b) := by
  intro l
  induction l with
  | nil => intro x hx; cases hx
  | cons y ys ih =>
    intro x hx hatt b
    rcases List.mem_cons.mp hx with rfl | hx2
    · exact foldlPres P f hpres ys (f b x) (hatt b)
    · exact ih x hx2 hatt (f b y)

theorem mem_insertStr_self (l : List String) (x : String) : x ∈ insertStr l x := by
  unfold insertStr
  by_cases hx : x ∈ l
  · rw [if_pos hx]; exact hx
  · rw [if_neg hx]; exact List.mem_cons_self _ _

theorem mem_insertStr_of_mem {l : List String} {y : String} (x : String) (h : y ∈ l) :
    y ∈ insertStr l x := by
  unfold insertStr
  by_cases hx : x ∈ l
  · rw [if_pos hx]; exact h
  · rw [if_neg hx]; exact List.mem_cons_of_mem _ h

theorem mem_insertStr {l : List String} {x y : String} :
    y ∈ insertStr l x ↔ y = x ∨ y ∈ l := by
  unfold insertStr
  by_cases hx : x ∈ l
  · rw [if_pos hx]
    constructor
    · exact fun h => Or.inr h
    · rintro (rfl | h)
      · exact hx
      · exact h
  · rw [if_neg hx]
    exact List.mem_cons

theorem nodup_insertStr {l : List String} (x : String) (h : l.Nodup) :
    (insertStr l x).Nodup := by
  unfold insertStr
  by_cases hx : x ∈ l
  · rw [if_pos hx]; exact h
  · rw [if_neg hx]; exact List.nodup_cons.mpr ⟨hx, h⟩

theorem stepRefl (s : V) : Step s s :=
  ⟨fun _ h => h, fun _ h => h, id, id, id⟩

theorem stepTrans {s t u : V} (h1 : Step s t) (h2 : Step t u) : Step s u :=
  ⟨fun x h => h2.colMem x (h1.colMem x h), fun x h => h2.tabMem x (h1.tabMem x h),
   fun h => h2.colNodup (h1.colNodup h), fun h => h2.tabNodup (h1.tabNodup h),
   fun h => h2.panic (h1.panic h)⟩

theorem stepFoldl {α : Type} {f : V → α → V} (hf : ∀ b a, Step b (f b a)) :
    ∀ (l : List α) (b : V), Step b (l.foldl f b) := by
  intro l
  induction l with
  | nil => intro b; exact stepRefl b
  | cons x xs ih => intro b; exact stepTrans (hf b x) (ih (f b x))

theorem step_addColumn (s : V) (c : String) : Step s (s.addColumn c) :=
  ⟨fun _ h => mem_insertStr_of_mem c h, fun _ h => h, nodup_insertStr c, id, id⟩

theorem step_addTable (s : V) (t : String) : Step s (s.addTable t) :=
  ⟨fun _ h => h, fun _ h => mem_insertStr_of_mem t h, id, nodup_insertStr t, id⟩

theorem step_addAlias (s : V) (a t : String) : Step s (s.addAlias a t) :=
  ⟨fun _ h => h, fun _ h => h, id, id, id⟩

theorem step_visitExpr (s : V) (e : Expr) : Step s (visitExpr s e) := by
  induction e generalizing s with
  | Identifier v => exact step_addColumn s v
  | CompoundIdentifier parts => exact step_addColumn s _
  | Wildcard => exact step_addColumn s _
  | BinaryOp l r ihl ihr => exact stepTrans (ihl s) (ihr _)
  | Value => exact stepRefl s

theorem step_visitOptExpr (s : V) (o : Option Expr) : Step s (visitOptExpr s o) := by
  cases o with
  | some e => exact step_visitExpr s e
  | none => exact stepRefl s

theorem step_visitRelation (s : V) (n : ObjectName) : Step s (visitRelation s n) := by
  cases n with
  | nil => exact ⟨fun _ h => h, fun _ h => h, id, id, fun _ => rfl⟩
  | cons x xs => exact step_addTable s x

theorem step_visitTableFactor (s : V) (tf : TableFactorT) : Step s (visitTableFactor s tf) := by
  cases h : tf.tableAlias with
  | none =>
    simp only [visitTableFactor, h]
    exact stepTrans (step_addTable s _) (step_visitRelation _ _)
  | some a =>
    simp only [visitTableFactor, h]
    exact stepTrans (step_addTable s _)
      (stepTrans (step_addAlias _ a _) (step_visitRelation _ _))

theorem step_visitJoin (s : V) (j : Join) : Step s (visitJoin s j) :=
  stepTrans (step_visitTableFactor s j.relation) (step_visitOptExpr _ j.onExpr)

theorem step_visitTableWithJoins (s : V) (tw : TableWithJoins) :
    Step s (visitTableWithJoins s tw) :=
  stepTrans (step_visitTableFactor s tw.relation) (stepFoldl step_visitJoin tw.joins _)

theorem step_visitSelectItem (s : V) (it : SelectItem) : Step s (visitSelectItem s it) := by
  cases it with
  | UnnamedExpr e => exact step_visitExpr s e
  | ExprWithAlias e a => exact step_visitExpr s e
  | Wildcard => exact stepRefl s

theorem step_visitSelect (s : V) (sel : Select) : Step s (visitSelect s sel) :=
  stepTrans (stepFoldl step_visitSelectItem sel.projection s)
    (stepTrans (stepFoldl step_visitTableWithJoins sel.fromClause _)
      (step_visitOptExpr _ sel.selection))

theorem step_visitSetExpr (s : V) (se : SetExpr) : Step s (visitSetExpr s se) := by
  cases se with
  | Select sel => exact step_visitSelect s sel
  | Other => exact stepRefl s

theorem step_visitQuery (s : V) (q : Query) : Step s (visitQuery s q) :=
  step_visitSetExpr s q.body

theorem step_visitOptQuery (s : V) (o : Option Query) : Step s (visitOptQuery s o) := by
  cases o with
  | some q => exact step_visitQuery s q
  | none => exact stepRefl s

theorem step_visitOptTW (s : V) (o : Option TableWithJoins) : Step s (visitOptTW s o) := by
  cases o with
  | some tw => exact step_visitTableWithJoins s tw
  | none => exact stepRefl s

theorem step_visitAssignment (s : V) (a : Assignment) : Step s (visitAssignment s a) :=
  step_visitExpr s a.value

theorem step_projArm (s : V) (it : SelectItem) : Step s (projArm s it) := by
  cases it with
  | UnnamedExpr e => cases e <;> first | exact step_addColumn s _ | exact stepRefl s
  | ExprWithAlias e a => cases e <;> first | exact step_addColumn s _ | exact stepRefl s
  | Wildcard => exact step_addColumn s _

theorem step_setClass (s : V) (qt : QueryType) : Step s { s with query_type := qt } :=
  ⟨fun _ h => h, fun _ h => h, id, id, id⟩

theorem step_setClassTarget (s : V) (qt : QueryType) (tt : String) :
    Step s { s with query_type := qt, target_table := tt } :=
  ⟨fun _ h => h, fun _ h => h, id, id, id⟩

theorem step_setTarget (s : V) (tt : String) : Step s { s with target_table := tt } :=
  ⟨fun _ h => h, fun _ h => h, id, id, id⟩

theorem step_queryArm (s : V) (q : Query) : Step s (queryArm s q) := by
  cases hb : q.body with
  | Select sel =>
    simp only [queryArm, hb]
    exact stepTrans (step_setClass s _) (stepFoldl step_projArm sel.projection _)
  | Other =>
    simp only [queryArm, hb]
    exact step_setClass s _

theorem step_insertArm (s : V) (n : ObjectName) (cols : List String) :
    Step s (insertArm s n cols) := by
  simp only [insertArm]
  exact stepTrans (step_setClass s _)
    (stepTrans (step_addTable _ _)
      (stepTrans (step_setTarget _ _)
        (stepFoldl (fun b c => step_addColumn b _) cols _)))

theorem step_assignArm (tn : String) (s : V) (a : Assignment) : Step s (assignArm tn s a) := by
  have h1 : Step s (match a.value with
      | .CompoundIdentifier parts =>
        match parts with
        | [] => { s with panicked := true }
        | p :: ps => s.addColumn (p ++ "." ++ ps.getLastD p)
      | .Identifier v => s.addColumn (tn ++ "." ++ v)
      | _ => s) := by
    cases hv : a.value with
    | CompoundIdentifier parts =>
      cases parts with
      | nil => exact ⟨fun _ h => h, fun _ h => h, id, id, fun _ => rfl⟩
      | cons p ps => exact step_addColumn s _
    | Identifier v => exact step_addColumn s _
    | Wildcard => exact stepRefl s
    | BinaryOp l r => exact stepRefl s
    | Value => exact stepRefl s
  have h2 : ∀ t : V, Step t (match a.target with
      | AssignmentTarget.ColumnName name =>
        match name with
        | [c] => t.addColumn (tn ++ "." ++ c)
        | _ => t.addColumn (dotJoin name)
      | AssignmentTarget.Tuple _ => t) := by
    intro t
    cases ht : a.target with
    | ColumnName name =>
      match name with
      | [] => exact step_addColumn t _
      | [c] => exact step_addColumn t _
      | c1 :: c2 :: rest => exact step_addColumn t _
    | Tuple _ => exact stepRefl t
  exact stepTrans h1 (h2 _)

theorem step_updateArm (s : V) (table : TableFactorT) (assigns : List Assignment) :
    Step s (updateArm s table assigns) := by
  simp only [updateArm]
  exact stepTrans (step_setClassTarget s _ _)
    (stepTrans (stepFoldl (step_assignArm table.render) assigns _) (step_addTable _ _))

theorem step_deleteArm (s : V) (ft : FromTable) : Step s (deleteArm s ft) := by
  cases ft with
  | WithFromKeyword tables =>
    cases tables with
    | nil =>
      simp only [deleteArm]
      exact ⟨fun _ h => h, fun _ h => h, id, id, fun _ => rfl⟩
    | cons t ts =>
      simp only [deleteArm]
      refine stepTrans (step_setClassTarget s QueryType.DELETE t.render) ?h2
      exact stepFoldl (fun b x => step_addTable b x.render) (t :: ts) _
  | WithoutKeyword tables =>
    simp only [deleteArm]
    exact step_setClass s _

mutual

theorem step_visitStatement (s : V) (st : Statement) : Step s (visitStatement s st) := by
  cases st with
  | Query q => exact stepTrans (step_queryArm s q) (step_visitQuery _ q)
  | Insert name cols src =>
    exact stepTrans (step_insertArm s name cols)
      (stepTrans (step_visitRelation _ name) (step_visitOptQuery _ src))
  | Update table assigns fr sel =>
    exact stepTrans (step_updateArm s table assigns)
      (stepTrans (step_visitTableFactor _ table)
        (stepTrans (stepFoldl step_visitAssignment assigns _)
          (stepTrans (step_visitOptTW _ fr) (step_visitOptExpr _ sel))))
  | Delete fr sel =>
    refine stepTrans (step_deleteArm s fr) (stepTrans ?h (step_visitOptExpr _ sel))
    cases fr with
    | WithFromKeyword ts => exact stepFoldl step_visitTableFactor ts _
    | WithoutKeyword ts => exact stepFoldl step_visitTableFactor ts _
  | Other es nested =>
    exact stepTrans (stepFoldl step_visitExpr es s) (step_visitStatements _ nested)

theorem step_visitStatements (s : V) (l : List Statement) : Step s (visitStatements s l) := by
  cases l with
  | nil => exact stepRefl s
  | cons st rest =>
    exact stepTrans (step_visitStatement s st) (step_visitStatements _ rest)

end

theorem geqRefl (s : V) : GEq s s := ⟨rfl, rfl⟩

theorem geqTrans {s t u : V} (h1 : GEq s t) (h2 : GEq t u) : GEq s u :=
  ⟨h2.qt.trans h1.qt, h2.tt.trans h1.tt⟩

theorem geqFoldl {α : Type} {f : V → α → V} (hf : ∀ b a, GEq b (f b a)) :
    ∀ (l : List α) (b : V), GEq b (l.foldl f b) := by
  intro l
  induction l with
  | nil => intro b; exact geqRefl b
  | cons x xs ih => intro b; exact geqTrans (hf b x) (ih (f b x))

theorem geq_visitExpr (s : V) (e : Expr) : GEq s (visitExpr s e) := by
  induction e generalizing s with
  | BinaryOp l r ihl ihr => exact geqTrans (ihl s) (ihr _)
  | _ => exact ⟨rfl, rfl⟩

theorem geq_visitOptExpr (s : V) (o : Option Expr) : GEq s (visitOptExpr s o) := by
  cases o with
  | none => exact geqRefl s
  | some e => exact geq_visitExpr s e

theorem geq_visitRelation (s : V) (n : ObjectName) : GEq s (visitRelation s n) := by
  cases n <;> exact ⟨rfl, rfl⟩

theorem geq_visitTableFactor (s : V) (tf : TableFactorT) : GEq s (visitTableFactor s tf) := by
  cases h : tf.tableAlias with
  | none =>
    simp only [visitTableFactor, h]
    refine geqTrans ?h1 (geq_visitRelation _ tf.name)
    exact ⟨rfl, rfl⟩
  | some a =>
    simp only [visitTableFactor, h]
    exact geqTrans
      (show GEq s ((s.addTable (ObjectName.render tf.name)).addAlias a (ObjectName.render tf.name))
        from ⟨rfl, rfl⟩)
      (geq_visitRelation ((s.addTable (ObjectName.render tf.name)).addAlias a
        (ObjectName.render tf.name)) tf.name)

theorem geq_visitJoin (s : V) (j : Join) : GEq s (visitJoin s j) :=
  geqTrans (geq_visitTableFactor s j.relation) (geq_visitOptExpr _ j.onExpr)

theorem geq_visitTableWithJoins (s : V) (tw : TableWithJoins) :
    GEq s (visitTableWithJoins s tw) :=
  geqTrans (geq_visitTableFactor s tw.relation) (geqFoldl geq_visitJoin tw.joins _)

theorem geq_visitSelectItem (s : V) (it : SelectItem) : GEq s (visitSelectItem s it) := by
  cases it with
  | UnnamedExpr e => exact geq_visitExpr s e
  | ExprWithAlias e a => exact geq_visitExpr s e
  | Wildcard => exact geqRefl s

theorem geq_visitSelect (s : V) (sel : Select) : GEq s (visitSelect s sel) :=
  geqTrans (geqFoldl geq_visitSelectItem sel.projection s)
    (geqTrans (geqFoldl geq_visitTableWithJoins sel.fromClause _)
      (geq_visitOptExpr _ sel.selection))

theorem geq_visitSetExpr (s : V) (se : SetExpr) : GEq s (visitSetExpr s se) := by
  cases se with
  | Select sel => exact geq_visitSelect s sel
  | Other => exact geqRefl s

theorem geq_visitQuery (s : V) (q : Query) : GEq s (visitQuery s q) :=
  geq_visitSetExpr s q.body

theorem geq_visitOptQuery (s : V) (o : Option Query) : GEq s (visitOptQuery s o) := by
  cases o with
  | none => exact geqRefl s
  | some q => exact geq_visitQuery s q

theorem geq_visitOptTW (s : V) (o : Option TableWithJoins) : GEq s (visitOptTW s o) := by
  cases o with
  | none => exact geqRefl s
  | some tw => exact geq_visitTableWithJoins s tw

theorem geq_visitAssignment (s : V) (a : Assignment) : GEq s (visitAssignment s a) :=
  geq_visitExpr s a.value

theorem panicked_optAddColumn (s : V) (o : Option String) :
    (optAddColumn s o).panicked = s.panicked := by
  cases o <;> rfl

/-- `assignArm` inserts exactly the right-hand contribution followed by
the left-hand contribution (provided the right-hand value is not an
empty compound identifier, on which the Rust code would panic). -/
theorem assignArm_eq {a : Assignment} (tn : String) (s : V)
    (hv : a.value ≠ .CompoundIdentifier []) :
    assignArm tn s a =
      optAddColumn (optAddColumn s (rhsContribution tn a)) (lhsContribution tn a) := by
  obtain ⟨target, value⟩ := a
  cases value with
  | CompoundIdentifier parts =>
    cases parts with
    | nil => exact absurd rfl hv
    | cons p ps =>
      cases target with
      | ColumnName name => rcases name with _ | ⟨c, _ | ⟨c2, rest⟩⟩ <;> rfl
      | Tuple ns => rfl
  | Identifier v =>
    cases target with
    | ColumnName name => rcases name with _ | ⟨c, _ | ⟨c2, rest⟩⟩ <;> rfl
    | Tuple ns => rfl
  | Wildcard =>
    cases target with
    | ColumnName name => rcases name with _ | ⟨c, _ | ⟨c2, rest⟩⟩ <;> rfl
    | Tuple ns => rfl
  | BinaryOp l r =>
    cases target with
    | ColumnName name => rcases name with _ | ⟨c, _ | ⟨c2, rest⟩⟩ <;> rfl
    | Tuple ns => rfl
  | Value =>
    cases target with
    | ColumnName name => rcases name with _ | ⟨c, _ | ⟨c2, rest⟩⟩ <;> rfl
    | Tuple ns => rfl

theorem panicked_addColumn (s : V) (c : String) : (s.addColumn c).panicked = s.panicked := rfl

theorem panicked_addTable (s : V) (t : String) : (s.addTable t).panicked = s.panicked := rfl

theorem panicked_addAlias (s : V) (a t : String) : (s.addAlias a t).panicked = s.panicked := rfl

theorem panicked_foldl {α : Type} {f : V → α → V}
    (hf : ∀ b a, (f b a).panicked = b.panicked) :
    ∀ (l : List α) (b : V), (l.foldl f b).panicked = b.panicked := by
  intro l
  induction l with
  | nil => intro b; rfl
  | cons x xs ih => intro b; rw [List.foldl_cons, ih, hf]

theorem panicked_visitExpr (s : V) (e : Expr) : (visitExpr s e).panicked = s.panicked := by
  induction e generalizing s with
  | BinaryOp l r ihl ihr =>
    show (visitExpr (visitExpr s l) r).panicked = s.panicked
    rw [ihr, ihl]
  | _ => rfl

theorem panicked_visitOptExpr (s : V) (o : Option Expr) :
    (visitOptExpr s o).panicked = s.panicked := by
  cases o with
  | none => rfl
  | some e => exact panicked_visitExpr s e

theorem panicked_visitSelectItem (s : V) (it : SelectItem) :
    (visitSelectItem s it).panicked = s.panicked := by
  cases it with
  | UnnamedExpr e => exact panicked_visitExpr s e
  | ExprWithAlias e a => exact panicked_visitExpr s e
  | Wildcard => rfl

theorem panicked_projArm (s : V) (it : SelectItem) : (projArm s it).panicked = s.panicked := by
  cases it with
  | UnnamedExpr e => cases e <;> rfl
  | ExprWithAlias e a => cases e <;> rfl
  | Wildcard => rfl

theorem panicked_queryArm (s : V) (q : Query) : (queryArm s q).panicked = s.panicked := by
  cases hb : q.body with
  | Select sel =>
    simp only [queryArm, hb]
    rw [panicked_foldl panicked_projArm]
  | Other => simp only [queryArm, hb]

theorem panicked_insertArm (s : V) (n : ObjectName) (cols : List String) :
    (insertArm s n cols).panicked = s.panicked := by
  simp only [insertArm]
  rw [panicked_foldl (fun b c => panicked_addColumn b _)]
  rfl

theorem np_visitRelation {s : V} {n : ObjectName} (hn : n ≠ [])
    (h : s.panicked = false) : (visitRelation s n).panicked = false := by
  cases n with
  | nil => exact absurd rfl hn
  | cons x xs => exact h

theorem np_visitTableFactor {s : V} {tf : TableFactorT} (htf : tf.wfB = true)
    (h : s.panicked = false) : (visitTableFactor s tf).panicked = false := by
  have hn : tf.name ≠ [] := by
    intro he
    unfold TableFactorT.wfB at htf
    rw [he] at htf
    simp at htf
  cases ha : tf.tableAlias with
  | none =>
    simp only [visitTableFactor, ha]
    exact np_visitRelation hn (by rw [panicked_addTable]; exact h)
  | some a =>
    simp only [visitTableFactor, ha]
    exact np_visitRelation hn (by rw [panicked_addAlias, panicked_addTable]; exact h)

theorem np_visitJoin {s : V} {j : Join} (hj : j.wfB = true) (h : s.panicked = false) :
    (visitJoin s j).panicked = false := by
  unfold visitJoin
  rw [panicked_visitOptExpr]
  exact np_visitTableFactor hj h

theorem np_visitTableWithJoins {s : V} {tw : TableWithJoins} (htw : tw.wfB = true)
    (h : s.panicked = false) : (visitTableWithJoins s tw).panicked = false := by
  unfold TableWithJoins.wfB at htw
  have h1 := (Bool.and_eq_true _ _).mp htw
  exact foldlPresMem (fun v => v.panicked = false) visitJoin tw.joins _
    (fun a ha v hv => np_visitJoin (List.all_eq_true.mp h1.2 a ha) hv)
    (np_visitTableFactor h1.1 h)

theorem np_visitSelect {s : V} {sel : Select} (hsel : sel.wfB = true)
    (h : s.panicked = false) : (visitSelect s sel).panicked = false := by
  unfold visitSelect
  rw [panicked_visitOptExpr]
  have hinit : (sel.projection.foldl visitSelectItem s).panicked = false := by
    rw [panicked_foldl panicked_visitSelectItem]
    exact h
  exact foldlPresMem (fun v => v.panicked = false) visitTableWithJoins sel.fromClause _
    (fun a ha v hv => np_visitTableWithJoins (List.all_eq_true.mp hsel a ha) hv) hinit

theorem np_visitSetExpr {s : V} {se : SetExpr} (hse : se.wfB = true)
    (h : s.panicked = false) : (visitSetExpr s se).panicked = false := by
  cases se with
  | Select sel => exact np_visitSelect hse h
  | Other => exact h

theorem np_visitQuery {s : V} {q : Query} (hq : q.wfB = true)
    (h : s.panicked = false) : (visitQuery s q).panicked = false :=
  np_visitSetExpr hq h

theorem np_visitOptQuery {s : V} {o : Option Query} (ho : optQueryWfB o = true)
    (h : s.panicked = false) : (visitOptQuery s o).panicked = false := by
  cases o with
  | none => exact h
  | some q => exact np_visitQuery ho h

theorem np_visitOptTW {s : V} {o : Option TableWithJoins} (ho : optTWWfB o = true)
    (h : s.panicked = false) : (visitOptTW s o).panicked = false := by
  cases o with
  | none => exact h
  | some tw => exact np_visitTableWithJoins ho h

theorem np_assignArm {a : Assignment} (tn : String) (s : V) (ha : a.valueWfB = true)
    (h : s.panicked = false) : (assignArm tn s a).panicked = false := by
  have hv : a.value ≠ Expr.CompoundIdentifier [] := by
    intro hcv
    unfold Assignment.valueWfB at ha
    rw [hcv] at ha
    simp at ha
  rw [assignArm_eq tn s hv, panicked_optAddColumn, panicked_optAddColumn]
  exact h

theorem np_updateArm {s : V} {table : TableFactorT} {assigns : List Assignment}
    (ha : assigns.all Assignment.valueWfB = true) (h : s.panicked = false) :
    (updateArm s table assigns).panicked = false := by
  simp only [updateArm]
  rw [panicked_addTable]
  exact foldlPresMem (fun v => v.panicked = false) (assignArm table.render) assigns _
    (fun a ham v hv => np_assignArm _ _ (List.all_eq_true.mp ha a ham) hv) h

theorem np_deleteArm {s : V} {ft : FromTable} (hf : ft.wfB = true)
    (h : s.panicked = false) : (deleteArm s ft).panicked = false := by
  cases ft with
  | WithFromKeyword ts =>
    cases ts with
    | nil => unfold FromTable.wfB at hf; simp at hf
    | cons t xs =>
      simp only [deleteArm]
      rw [panicked_foldl (fun b x => panicked_addTable b _)]
      exact h
  | WithoutKeyword ts => exact h

theorem statementsClaimWfB_mem : ∀ {l : List Statement}, statementsClaimWfB l = true →
    ∀ st ∈ l, st.claimWfB = true := by
  intro l
  induction l with
  | nil => intro _ st hst; cases hst
  | cons a rest ih =>
    intro hl st hst
    simp only [statementsClaimWfB] at hl
    have h2 := (Bool.and_eq_true _ _).mp hl
    rcases List.mem_cons.mp hst with rfl | hst2
    · exact h2.1
    · exact ih h2.2 st hst2

theorem statementsAssignsWfB_mem : ∀ {l : List Statement}, statementsAssignsWfB l = true →
    ∀ st ∈ l, st.assignsWfB = true := by
  intro l
  induction l with
  | nil => intro _ st hst; cases hst
  | cons a rest ih =>
    intro hl st hst
    simp only [statementsAssignsWfB] at hl
    have h2 := (Bool.and_eq_true _ _).mp hl
    rcases List.mem_cons.mp hst with rfl | hst2
    · exact h2.1
    · exact ih h2.2 st hst2

mutual

theorem np_visitStatement {st : Statement} (s : V) (hw : st.wfB = true)
    (h : s.panicked = false) : (visitStatement s st).panicked = false := by
  unfold Statement.wfB at hw
  have hc := (Bool.and_eq_true _ _).mp hw
  cases st with
  | Query q =>
    exact np_visitQuery hc.1 (by rw [panicked_queryArm]; exact h)
  | Insert name cols src =>
    have h2 := (Bool.and_eq_true _ _).mp hc.1
    have hn : name ≠ [] := by
      intro he
      rw [he] at h2
      simp at h2
    exact np_visitOptQuery h2.2
      (np_visitRelation hn (by rw [panicked_insertArm]; exact h))
  | Update table assigns fr sel =>
    have h2 := (Bool.and_eq_true _ _).mp hc.1
    simp only [visitStatement]
    rw [panicked_visitOptExpr]
    refine np_visitOptTW h2.2 ?h3
    refine foldlPresMem (fun v => v.panicked = false) visitAssignment assigns _
      (fun a ham v hv => by
        show (visitExpr v a.value).panicked = false
        rw [panicked_visitExpr]
        exact hv) ?h4
    exact np_visitTableFactor h2.1 (np_updateArm hc.2 h)
  | Delete fr sel =>
    simp only [visitStatement]
    rw [panicked_visitOptExpr]
    have hfac : ∀ ts : List TableFactorT, ts.all TableFactorT.wfB = true → ∀ v : V,
        v.panicked = false → (ts.foldl visitTableFactor v).panicked = false := by
      intro ts hts v hv
      exact foldlPresMem (fun w => w.panicked = false) visitTableFactor ts _
        (fun a ham w hwp => np_visitTableFactor (List.all_eq_true.mp hts a ham) hwp) hv
    cases fr with
    | WithFromKeyword ts =>
      have h2 := (Bool.and_eq_true _ _).mp hc.1
      exact hfac ts h2.2 _ (np_deleteArm hc.1 h)
    | WithoutKeyword ts =>
      exact hfac ts hc.1 _ (np_deleteArm hc.1 h)
  | Other es nested =>
    show (visitStatements (es.foldl visitExpr s) nested).panicked = false
    refine np_visitStatements _ ?hw2 ?hp2
    · intro st2 hst2
      unfold Statement.wfB
      rw [statementsClaimWfB_mem hc.1 st2 hst2, statementsAssignsWfB_mem hc.2 st2 hst2]
      rfl
    · rw [panicked_foldl panicked_visitExpr]
      exact h

theorem np_visitStatements {l : List Statement} (s : V) (hw : ∀ st ∈ l, st.wfB = true)
    (h : s.panicked = false) : (visitStatements s l).panicked = false := by
  cases l with
  | nil => exact h
  | cons st rest =>
    show (visitStatements (visitStatement s st) rest).panicked = false
    exact np_visitStatements _ (fun a ha => hw a (List.mem_cons_of_mem _ ha))
      (np_visitStatement _ (hw st (List.mem_cons_self _ _)) h)

end

theorem np_runVisitor {stmts : List Statement} (hw : ∀ st ∈ stmts, st.wfB = true) :
    (runVisitor stmts).panicked = false :=
  foldlPresMem (fun v => v.panicked = false) visitStatement stmts _
    (fun a ha v hv => np_visitStatement v (hw a ha) hv) rfl

theorem nodup_runVisitor (stmts : List Statement) :
    (runVisitor stmts).columns.Nodup ∧ (runVisitor stmts).tables.Nodup := by
  have h := stepFoldl step_visitStatement stmts ({} : V)
  exact ⟨h.colNodup List.nodup_nil, h.tabNodup List.nodup_nil⟩

theorem inspectStmts_eq {stmts : List Statement} (h : (runVisitor stmts).panicked = false) :
    inspectStmts stmts =
      .completed (assemble (runVisitor stmts) (runVisitor stmts).columns
        (runVisitor stmts).tables) := by
  simp only [inspectStmts, inspect, h]
  rfl

theorem completed_inv {stmts : List Statement} {r : ExtractResult}
    (h : inspectStmts stmts = .completed r) :
    (runVisitor stmts).panicked = false ∧
    r = assemble (runVisitor stmts) (runVisitor stmts).columns (runVisitor stmts).tables := by
  simp only [inspectStmts, inspect] at h
  cases hp : (runVisitor stmts).panicked with
  | true => rw [hp] at h; simp at h
  | false =>
    rw [hp] at h
    simp at h
    exact ⟨rfl, h.symm⟩

theorem star_visitExpr {e : Expr} (he : e.hasWildcardB = true) (s : V) :
    "*" ∈ (visitExpr s e).columns := by
  induction e generalizing s with
  | Wildcard => exact mem_insertStr_self _ _
  | BinaryOp l r ihl ihr =>
    simp only [Expr.hasWildcardB, Bool.or_eq_true] at he
    rcases he with hl | hr
    · exact (step_visitExpr (visitExpr s l) r).colMem _ (ihl hl s)
    · exact ihr hr _
  | Identifier v => simp [Expr.hasWildcardB] at he
  | CompoundIdentifier parts => simp [Expr.hasWildcardB] at he
  | Value => simp [Expr.hasWildcardB] at he

theorem star_visitOptExpr {o : Option Expr} (ho : optExprHasB o = true) (s : V) :
    "*" ∈ (visitOptExpr s o).columns := by
  cases o with
  | none => simp [optExprHasB] at ho
  | some e => exact star_visitExpr ho s

theorem star_visitSelectItem {it : SelectItem} (h : it.exprStarB = true) (s : V) :
    "*" ∈ (visitSelectItem s it).columns := by
  cases it with
  | UnnamedExpr e => exact star_visitExpr h s
  | ExprWithAlias e a => exact star_visitExpr h s
  | Wildcard => simp [SelectItem.exprStarB] at h

theorem star_visitJoin {j : Join} (hj : j.starB = true) (s : V) :
    "*" ∈ (visitJoin s j).columns := by
  unfold visitJoin
  exact star_visitOptExpr hj _

theorem star_visitTableWithJoins {tw : TableWithJoins} (h : tw.starB = true) (s : V) :
    "*" ∈ (visitTableWithJoins s tw).columns := by
  unfold TableWithJoins.starB at h
  rcases List.any_eq_true.mp h with ⟨j, hj, hjs⟩
  unfold visitTableWithJoins
  exact foldlAttain (fun v => "*" ∈ v.columns) visitJoin
    (fun b a hb => (step_visitJoin b a).colMem _ hb) tw.joins j hj
    (fun b => star_visitJoin hjs b) _

theorem star_visitSelect {sel : Select} (h : sel.exprStarB = true) (s : V) :
    "*" ∈ (visitSelect s sel).columns := by
  unfold Select.exprStarB at h
  unfold visitSelect
  have hpres1 : ∀ (b : V) (a : SelectItem), "*" ∈ b.columns → "*" ∈ (visitSelectItem b a).columns :=
    fun b a hb => (step_visitSelectItem b a).colMem _ hb
  have hpres2 : ∀ (b : V) (a : TableWithJoins),
      "*" ∈ b.columns → "*" ∈ (visitTableWithJoins b a).columns :=
    fun b a hb => (step_visitTableWithJoins b a).colMem _ hb
  simp only [Bool.or_eq_true] at h
  rcases h with (hproj | hfrom) | hsel2
  · rcases List.any_eq_true.mp hproj with ⟨it, hit, hits⟩
    refine (step_visitOptExpr _ sel.selection).colMem _ ?h1
    refine foldlPres (fun v => "*" ∈ v.columns) visitTableWithJoins hpres2 sel.fromClause _ ?h2
    exact foldlAttain (fun v => "*" ∈ v.columns) visitSelectItem hpres1 sel.projection it hit
      (fun b => star_visitSelectItem hits b) s
  · rcases List.any_eq_true.mp hfrom with ⟨tw, htw, htws⟩
    refine (step_visitOptExpr _ sel.selection).colMem _ ?h3
    exact foldlAttain (fun v => "*" ∈ v.columns) visitTableWithJoins hpres2 sel.fromClause tw htw
      (fun b => star_visitTableWithJoins htws b) _
  · exact star_visitOptExpr hsel2 _

theorem star_visitSetExpr {se : SetExpr} (h : se.exprStarB = true) (s : V) :
    "*" ∈ (visitSetExpr s se).columns := by
  cases se with
  | Select sel => exact star_visitSelect h s
  | Other => simp [SetExpr.exprStarB] at h

theorem star_visitQuery {q : Query} (h : q.exprStarB = true) (s : V) :
    "*" ∈ (visitQuery s q).columns :=
  star_visitSetExpr h s

theorem star_visitOptQuery {o : Option Query} (h : optQueryStarB o = true) (s : V) :
    "*" ∈ (visitOptQuery s o).columns := by
  cases o with
  | none => simp [optQueryStarB] at h
  | some q => exact star_visitQuery h s

theorem star_visitOptTW {o : Option TableWithJoins} (h : optTWStarB o = true) (s : V) :
    "*" ∈ (visitOptTW s o).columns := by
  cases o with
  | none => simp [optTWStarB] at h
  | some tw => exact star_visitTableWithJoins h s

theorem star_projArm {it : SelectItem} (h : it.isWildcardB = true) (s : V) :
    "*" ∈ (projArm s it).columns := by
  cases it with
  | UnnamedExpr e => simp [SelectItem.isWildcardB] at h
  | ExprWithAlias e a => simp [SelectItem.isWildcardB] at h
  | Wildcard => exact mem_insertStr_self _ _

theorem star_visitStatement {st : Statement} (h : st.starB = true) (s : V) :
    "*" ∈ (visitStatement s st).columns := by
  cases st with
  | Query q =>
    show "*" ∈ (visitQuery (queryArm s q) q).columns
    simp only [Statement.starB, Bool.or_eq_true] at h
    rcases h with hproj | hexpr
    · refine (step_visitQuery _ q).colMem _ ?h1
      cases hb : q.body with
      | Select sel =>
        rw [hb] at hproj
        rcases List.any_eq_true.mp hproj with ⟨it, hit, hits⟩
        simp only [queryArm, hb]
        exact foldlAttain (fun v => "*" ∈ v.columns) projArm
          (fun b a hb2 => (step_projArm b a).colMem _ hb2) sel.projection it hit
          (fun b => star_projArm hits b) _
      | Other => rw [hb] at hproj; simp at hproj
    · exact star_visitQuery hexpr _
  | Insert name cols src =>
    exact star_visitOptQuery h _
  | Update table assigns fr sel =>
    show "*" ∈ (visitOptExpr (visitOptTW (assigns.foldl visitAssignment
      (visitTableFactor (updateArm s table assigns) table)) fr) sel).columns
    simp only [Statement.starB, Bool.or_eq_true] at h
    rcases h with (hass | hfr) | hsel2
    · rcases List.any_eq_true.mp hass with ⟨a, ha, has⟩
      refine (step_visitOptExpr _ sel).colMem _ ?h2
      refine (step_visitOptTW _ fr).colMem _ ?h3
      exact foldlAttain (fun v => "*" ∈ v.columns) visitAssignment
        (fun b x hb => (step_visitAssignment b x).colMem _ hb) assigns a ha
        (fun b => star_visitExpr has b) _
    · refine (step_visitOptExpr _ sel).colMem _ ?h4
      exact star_visitOptTW hfr _
    · exact star_visitOptExpr hsel2 _
  | Delete fr sel =>
    show "*" ∈ (visitOptExpr _ sel).columns
    exact star_visitOptExpr h _
  | Other es nested =>
    rcases List.any_eq_true.mp h with ⟨e, he, hes⟩
    show "*" ∈ (visitStatements (es.foldl visitExpr s) nested).columns
    refine (step_visitStatements _ nested).colMem _ ?hst
    exact foldlAttain (fun v => "*" ∈ v.columns) visitExpr
      (fun b a hb => (step_visitExpr b a).colMem _ hb) es e he
      (fun b => star_visitExpr hes b) s

theorem star_runVisitor {stmts : List Statement} {st : Statement}
    (hst : st ∈ stmts) (h : st.starB = true) : "*" ∈ (runVisitor stmts).columns :=
  foldlAttain (fun v => "*" ∈ v.columns) visitStatement
    (fun b a hb => (step_visitStatement b a).colMem _ hb) stmts st hst
    (fun b => star_visitStatement h b) _

theorem containsDot_star : containsDot "*" = false := by decide

theorem rewriteColumn_star (al : List (String × String)) : rewriteColumn al "*" = "*" := by
  unfold rewriteColumn
  rw [containsDot_star]
  simp

theorem append_dot_ne_star (a b : String) : a ++ "." ++ b ≠ "*" := by
  intro h
  have hd := congrArg String.data h
  rw [String.data_append, String.data_append] at hd
  have hdot : (".".data : List Char) = ['.'] := by decide
  rw [hdot] at hd
  have hmem : ('.' : Char) ∈ a.data ++ ['.'] ++ b.data := by simp
  rw [hd] at hmem
  have hno : ('.' : Char) ∈ ("*".data : List Char) → False := by decide
  exact hno hmem

theorem eq_star_of_rewrite {al : List (String × String)} {c : String}
    (h : rewriteColumn al c = "*") : c = "*" := by
  unfold rewriteColumn at h
  cases hd : containsDot c with
  | false => rw [hd] at h; simpa using h
  | true =>
    rw [hd] at h
    simp only [if_true] at h
    cases hl : lookupAlias al (beforeFirstDot c) with
    | none => rw [hl] at h; exact h
    | some t =>
      rw [hl] at h
      exact absurd h (append_dot_ne_star t (afterLastDot c))

theorem count_star_map_rewrite (al : List (String × String)) :
    ∀ l : List String, ((l.map (rewriteColumn al)).count "*") = l.count "*" := by
  intro l
  induction l with
  | nil => rfl
  | cons c cs ih =>
    by_cases hc : c = "*"
    · subst hc
      simp [List.count_cons, ih, rewriteColumn_star]
    · have h2 : rewriteColumn al c ≠ "*" := fun he => hc (eq_star_of_rewrite he)
      simp [List.count_cons, ih, hc, h2]

theorem count_sortStrings (l : List String) (x : String) :
    (sortStrings l).count x = l.count x :=
  (sortStrings_perm l).count_eq x

theorem mem_assemble_columns {st : V} {corder torder : List String} {x : String} :
    x ∈ (assemble st corder torder).columns ↔
      ∃ c, c ∈ corder ∧ rewriteColumn st.aliases c = x := by
  unfold assemble
  rw [mem_sortStrings]
  exact List.mem_map

theorem mem_assemble_tables {st : V} {corder torder : List String} {x : String} :
    x ∈ (assemble st corder torder).tables ↔ x ∈ torder := by
  unfold assemble
  exact mem_sortStrings

/-- C1 (counterexample): when the upstream parser rejects the input, the
call does not return a typed recoverable error: `Parser::parse_sql(..)
.unwrap()` panics, modelled by the `panicked` outcome. -/
theorem c1_parse_failure_panics_cex :
    inspect (Except.error "SELEC id FRO users") = RunOutcome.panicked := rfl

/-- C1 (amended): for every input the upstream parser rejects, `inspect`
panics (terminating the call); extraction does not proceed and no
partial result is produced — but the error is not surfaced as a typed,
recoverable value. -/
theorem c1_parse_failure_panics (e : String) :
    inspect (Except.error e) = RunOutcome.panicked := rfl

/-- C1 witness: the amended statement at a concrete parser error. -/
theorem c1_parse_failure_panics_witness :
    inspect (Except.error "not sql at all") = RunOutcome.panicked :=
  c1_parse_failure_panics "not sql at all"

/-- Sorting the drained hash-set contents is invariant under the
iteration order (permutations). -/
theorem assemble_order_irrelevant {st : V} {c1 c2 t1 t2 : List String}
    (hc : List.Perm c1 c2) (ht : List.Perm t1 t2) :
    assemble st c1 t1 = assemble st c2 t2 := by
  unfold assemble
  rw [sortStrings_eq_of_perm (hc.map (rewriteColumn st.aliases)), sortStrings_eq_of_perm ht]

/-- C8: `inspect` is deterministic and idempotent: it is a pure function
of the parsed statements, and the assembled result does not depend on
the iteration order in which the column and table hash sets are drained
— any iteration order (any permutation of the collected sets) yields
the canonical result, so repeated calls agree. -/
theorem c8_deterministic {stmts : List Statement} {corder torder : List String}
    (hc : List.Perm corder (runVisitor stmts).columns)
    (ht : List.Perm torder (runVisitor stmts).tables) :
    inspectWithOrder stmts corder torder = inspectStmts stmts := by
  unfold inspectWithOrder inspectStmts inspect
  cases hp : (runVisitor stmts).panicked with
  | true => simp [hp]
  | false =>
    simp only [hp]
    simp only [Bool.false_eq_true, if_false]
    exact congrArg RunOutcome.completed (assemble_order_irrelevant hc ht)

/-- C8 witness: a concrete run in which the hash sets are drained in a
different order than the canonical one still yields the same result. -/
theorem c8_deterministic_witness :
    inspectWithOrder [c8stmt] ["b", "a"] ["users"] = inspectStmts [c8stmt] :=
  c8_deterministic (by decide) (by decide)

theorem rewriteColumn_eq_some {al : List (String × String)} {c t : String}
    (hd : containsDot c = true) (hl : lookupAlias al (beforeFirstDot c) = some t) :
    rewriteColumn al c = t ++ "." ++ afterLastDot c := by
  unfold rewriteColumn
  rw [hd, hl]
  simp

theorem rewriteColumn_eq_none {al : List (String × String)} {c : String}
    (hd : containsDot c = true) (hl : lookupAlias al (beforeFirstDot c) = none) :
    rewriteColumn al c = c := by
  unfold rewriteColumn
  rw [hd, hl]
  simp

theorem rewriteColumn_eq_nodot {al : List (String × String)} {c : String}
    (hd : containsDot c = false) : rewriteColumn al c = c := by
  unfold rewriteColumn
  rw [hd]
  simp

/-- C2 (counterexample): on `SELECT ... FROM t1 AS a WHERE a.col = t1.col`
the collected set is `{"a.col", "t1.col"}` (duplicate-free), but the
in-place alias substitution rewrites `"a.col"` to `"t1.col"`, so the
result's `columns` is `["t1.col", "t1.col"]`: a repeated entry. -/
theorem c2_sorted_nodup_cex :
    inspectStmts [c2stmt] =
      .completed ⟨["t1"], ["t1.col", "t1.col"], "", .SELECT⟩ ∧
    ¬ (["t1.col", "t1.col"] : List String).Nodup := by
  exact ⟨by decide, by decide⟩

/-- C2 (amended): on success `tables` has no repeated entries and is
sorted ascending, and `columns` is sorted ascending; `columns` is
additionally duplicate-free whenever the alias rewrite is injective on
the collected column set (in particular before substitution), but the
in-place substitution can merge two distinct collected entries into the
same string, so `columns` may contain repeated entries. -/
theorem c2_sorted_nodup {stmts : List Statement} {r : ExtractResult}
    (h : inspectStmts stmts = .completed r) :
    r.tables.Nodup ∧ r.tables.Sorted strLeP ∧ r.columns.Sorted strLeP ∧
    ((∀ c1 ∈ (runVisitor stmts).columns, ∀ c2 ∈ (runVisitor stmts).columns,
        rewriteColumn (runVisitor stmts).aliases c1 =
          rewriteColumn (runVisitor stmts).aliases c2 → c1 = c2) →
      r.columns.Nodup) := by
  obtain ⟨hp, hr⟩ := completed_inv h
  subst hr
  refine ⟨?t1, ?t2, ?t3, ?t4⟩
  · exact ((sortStrings_perm _).nodup_iff).mpr (nodup_runVisitor stmts).2
  · exact sortStrings_sorted _
  · exact sortStrings_sorted _
  · intro hinj
    refine ((sortStrings_perm _).nodup_iff).mpr ?h5
    exact List.Nodup.map_on hinj (nodup_runVisitor stmts).1

/-- C2 witness: the amended statement evaluated on a concrete run. -/
theorem c2_sorted_nodup_witness :
    (["t1"] : List String).Nodup ∧ (["t1"] : List String).Sorted strLeP ∧
    (["t1.col", "t1.col"] : List String).Sorted strLeP ∧
    ((∀ c1 ∈ (runVisitor [c2stmt]).columns, ∀ c2 ∈ (runVisitor [c2stmt]).columns,
        rewriteColumn (runVisitor [c2stmt]).aliases c1 =
          rewriteColumn (runVisitor [c2stmt]).aliases c2 → c1 = c2) →
      (["t1.col", "t1.col"] : List String).Nodup) :=
  @c2_sorted_nodup [c2stmt] ⟨["t1"], ["t1.col", "t1.col"], "", .SELECT⟩ (by decide)

/-- C3 (counterexample): on `SELECT ... FROM t1 AS a, a AS b WHERE b.col ...`
the alias `"a"` is recorded for canonical table `"t1"`, yet the result
still contains the column `"a.col"` (the single-pass rewrite of
`"b.col"` through alias `"b" ↦ "a"`): a column string whose prefix
before the first `'.'` is a recorded alias remains in the output. -/
theorem c3_alias_substitution_cex :
    lookupAlias (runVisitor [c3stmt]).aliases "a" = some "t1" ∧
    inspectStmts [c3stmt] = .completed ⟨["a", "t1"], ["a.col"], "", .SELECT⟩ ∧
    beforeFirstDot "a.col" = "a" := by
  exact ⟨by decide, by decide, by decide⟩

/-- C3 (amended): alias substitution is a single in-place pass over the
collected column set: each collected column containing `'.'` whose
prefix before the first `'.'` is a recorded alias appears in the result
as the canonical table name joined with the text after the last `'.'`;
every other collected column appears unchanged; and every result column
is the rewrite of some collected column. A column with an alias for a
prefix can hence remain in the output exactly when it is itself the
image of such a (single, non-iterated) rewrite. -/
theorem c3_alias_substitution {stmts : List Statement} {r : ExtractResult}
    (h : inspectStmts stmts = .completed r) :
    (∀ c ∈ (runVisitor stmts).columns,
      (∀ t, containsDot c = true →
        lookupAlias (runVisitor stmts).aliases (beforeFirstDot c) = some t →
        (t ++ "." ++ afterLastDot c) ∈ r.columns) ∧
      (containsDot c = true →
        lookupAlias (runVisitor stmts).aliases (beforeFirstDot c) = none →
        c ∈ r.columns) ∧
      (containsDot c = false → c ∈ r.columns)) ∧
    (∀ x ∈ r.columns, ∃ c ∈ (runVisitor stmts).columns,
      x = rewriteColumn (runVisitor stmts).aliases c) := by
  obtain ⟨hp, hr⟩ := completed_inv h
  subst hr
  constructor
  · intro c hc
    refine ⟨?g1, ?g2, ?g3⟩
    · intro t hd hl
      rw [mem_assemble_columns]
      exact ⟨c, hc, rewriteColumn_eq_some hd hl⟩
    · intro hd hl
      rw [mem_assemble_columns]
      exact ⟨c, hc, rewriteColumn_eq_none hd hl⟩
    · intro hd
      rw [mem_assemble_columns]
      exact ⟨c, hc, rewriteColumn_eq_nodot hd⟩
  · intro x hx
    rcases mem_assemble_columns.mp hx with ⟨c, hc, heq⟩
    exact ⟨c, hc, heq.symm⟩

/-- C3 witness: the amended statement at the concrete run of `c3stmt`,
following the collected column `"b.col"` through its rewrite. -/
theorem c3_alias_substitution_witness :
    ("a" ++ "." ++ afterLastDot "b.col") ∈
      (ExtractResult.mk ["a", "t1"] ["a.col"] "" QueryType.SELECT).columns :=
  ((@c3_alias_substitution [c3stmt] ⟨["a", "t1"], ["a.col"], "", .SELECT⟩ (by decide)).1
    "b.col" (by decide)).1 "a" (by decide) (by decide)

theorem geq_projArm (s : V) (it : SelectItem) : GEq s (projArm s it) := by
  cases it with
  | UnnamedExpr e => cases e <;> exact ⟨rfl, rfl⟩
  | ExprWithAlias e a => cases e <;> exact ⟨rfl, rfl⟩
  | Wildcard => exact ⟨rfl, rfl⟩

theorem geq_assignArm (tn : String) (s : V) (a : Assignment) : GEq s (assignArm tn s a) := by
  by_cases hv : a.value = Expr.CompoundIdentifier []
  · obtain ⟨target, value⟩ := a
    simp only at hv
    subst hv
    cases target with
    | ColumnName name => rcases name with _ | ⟨c, _ | ⟨c2, rest⟩⟩ <;> exact ⟨rfl, rfl⟩
    | Tuple ns => exact ⟨rfl, rfl⟩
  · rw [assignArm_eq tn s hv]
    cases rhsContribution tn a <;> cases lhsContribution tn a <;> exact ⟨rfl, rfl⟩

theorem step_optAddColumn (s : V) (o : Option String) : Step s (optAddColumn s o) := by
  cases o with
  | none => exact stepRefl s
  | some c => exact step_addColumn s c

theorem target_queryArm (s : V) (q : Query) : (queryArm s q).target_table = s.target_table := by
  cases hb : q.body with
  | Select sel =>
    simp only [queryArm, hb]
    exact (geqFoldl geq_projArm sel.projection _).tt
  | Other => simp only [queryArm, hb]

theorem qt_queryArm (s : V) (q : Query) : (queryArm s q).query_type = QueryType.SELECT := by
  cases hb : q.body with
  | Select sel =>
    simp only [queryArm, hb]
    exact (geqFoldl geq_projArm sel.projection _).qt
  | Other => simp only [queryArm, hb]

theorem target_insertArm (s : V) (n : ObjectName) (cols : List String) :
    (insertArm s n cols).target_table = ObjectName.render n := by
  simp only [insertArm]
  exact (geqFoldl (fun b c => (⟨rfl, rfl⟩ : GEq b (b.addColumn (ObjectName.render n ++ "." ++ c))))
    cols _).tt

theorem qt_insertArm (s : V) (n : ObjectName) (cols : List String) :
    (insertArm s n cols).query_type = QueryType.INSERT := by
  simp only [insertArm]
  exact (geqFoldl (fun b c => (⟨rfl, rfl⟩ : GEq b (b.addColumn (ObjectName.render n ++ "." ++ c))))
    cols _).qt

theorem target_updateArm (s : V) (table : TableFactorT) (assigns : List Assignment) :
    (updateArm s table assigns).target_table = table.render := by
  simp only [updateArm]
  exact (geqFoldl (fun b a => geq_assignArm table.render b a) assigns _).tt

theorem qt_updateArm (s : V) (table : TableFactorT) (assigns : List Assignment) :
    (updateArm s table assigns).query_type = QueryType.UPDATE := by
  simp only [updateArm]
  exact (geqFoldl (fun b a => geq_assignArm table.render b a) assigns _).qt

theorem target_deleteArm_cons (s : V) (t : TableFactorT) (ts : List TableFactorT) :
    (deleteArm s (.WithFromKeyword (t :: ts))).target_table = t.render := by
  simp only [deleteArm]
  exact (geqFoldl (fun b x => (⟨rfl, rfl⟩ : GEq b (b.addTable x.render))) (t :: ts) _).tt

theorem target_visitStatement (st : Statement) (s : V) :
    ((∃ q, st = .Query q) → (visitStatement s st).target_table = s.target_table) ∧
    (∀ t, st.syntacticTarget = some t → (visitStatement s st).target_table = t) := by
  cases st with
  | Query q =>
    constructor
    · intro _
      show (visitQuery (queryArm s q) q).target_table = s.target_table
      rw [(geq_visitQuery _ q).tt, target_queryArm]
    · intro t ht
      simp [Statement.syntacticTarget] at ht
  | Insert name cols src =>
    constructor
    · rintro ⟨q, hq⟩
      exact Statement.noConfusion hq
    · intro t ht
      simp only [Statement.syntacticTarget] at ht
      injection ht with h2
      show (visitOptQuery (visitRelation (insertArm s name cols) name) src).target_table = t
      rw [(geq_visitOptQuery _ src).tt, (geq_visitRelation _ name).tt, target_insertArm]
      exact h2
  | Update table assigns fr sel =>
    constructor
    · rintro ⟨q, hq⟩
      exact Statement.noConfusion hq
    · intro t ht
      simp only [Statement.syntacticTarget] at ht
      injection ht with h2
      show (visitOptExpr (visitOptTW (assigns.foldl visitAssignment
        (visitTableFactor (updateArm s table assigns) table)) fr) sel).target_table = t
      rw [(geq_visitOptExpr _ sel).tt, (geq_visitOptTW _ fr).tt,
        (geqFoldl geq_visitAssignment assigns _).tt, (geq_visitTableFactor _ table).tt,
        target_updateArm]
      exact h2
  | Delete fr sel =>
    constructor
    · rintro ⟨q, hq⟩
      exact Statement.noConfusion hq
    · intro t ht
      cases fr with
      | WithFromKeyword ts =>
        cases ts with
        | nil => simp [Statement.syntacticTarget] at ht
        | cons t0 ts0 =>
          simp only [Statement.syntacticTarget] at ht
          injection ht with h2
          show (visitOptExpr ((t0 :: ts0).foldl visitTableFactor
            (deleteArm s (.WithFromKeyword (t0 :: ts0)))) sel).target_table = t
          rw [(geq_visitOptExpr _ sel).tt, (geqFoldl geq_visitTableFactor (t0 :: ts0) _).tt,
            target_deleteArm_cons]
          exact h2
      | WithoutKeyword ts => simp [Statement.syntacticTarget] at ht
  | Other es nested =>
    constructor
    · rintro ⟨q, hq⟩
      exact Statement.noConfusion hq
    · intro t ht
      simp [Statement.syntacticTarget] at ht

theorem mem_updateArm_contrib {table : TableFactorT} {assigns : List Assignment}
    {a : Assignment} (ha : a ∈ assigns) {x : String}
    (hx : rhsContribution table.render a = some x ∨ lhsContribution table.render a = some x)
    (hv : a.value ≠ .CompoundIdentifier []) (s : V) :
    x ∈ (updateArm s table assigns).columns := by
  simp only [updateArm]
  refine (step_addTable _ _).colMem _ ?h1
  refine foldlAttain (fun v => x ∈ v.columns) (assignArm table.render)
    (fun b y hb => (step_assignArm _ b y).colMem _ hb) assigns a ha ?h2 _
  intro b
  rw [assignArm_eq _ _ hv]
  rcases hx with hr | hl
  · rw [hr]
    exact (step_optAddColumn _ _).colMem _ (mem_insertStr_self _ _)
  · rw [hl]
    exact mem_insertStr_self _ _

/-- C4: for an `UPDATE` statement, each assignment contributes exactly
the described columns: a compound right-hand value contributes only its
first and last parts joined by `"."`, a bare right-hand identifier is
qualified with the target table name, a single-part left-hand target is
qualified with the target table name, and a multi-part left-hand target
is joined verbatim; both contributions end up in the collected column
set of the run. -/
theorem c4_update_assignments {table : TableFactorT} {assigns : List Assignment}
    {fr : Option TableWithJoins} {sel : Option Expr} {a : Assignment}
    (ha : a ∈ assigns) (hv : a.value ≠ .CompoundIdentifier []) :
    (∀ s : V, assignArm table.render s a =
      optAddColumn (optAddColumn s (rhsContribution table.render a))
        (lhsContribution table.render a)) ∧
    (∀ x, rhsContribution table.render a = some x →
      x ∈ (runVisitor [.Update table assigns fr sel]).columns) ∧
    (∀ x, lhsContribution table.render a = some x →
      x ∈ (runVisitor [.Update table assigns fr sel]).columns) := by
  have hmem : ∀ x, (rhsContribution table.render a = some x ∨
      lhsContribution table.render a = some x) →
      x ∈ (runVisitor [Statement.Update table assigns fr sel]).columns := by
    intro x hx
    show x ∈ (visitStatement {} (.Update table assigns fr sel)).columns
    simp only [visitStatement]
    refine (step_visitOptExpr _ sel).colMem _ ?h1
    refine (step_visitOptTW _ fr).colMem _ ?h2
    refine (stepFoldl step_visitAssignment assigns _).colMem _ ?h3
    refine (step_visitTableFactor _ table).colMem _ ?h4
    exact mem_updateArm_contrib ha hx hv {}
  exact ⟨fun s => assignArm_eq table.render s hv,
    fun x hx => hmem x (Or.inl hx), fun x hx => hmem x (Or.inr hx)⟩

/-- C4 witness: a three-part compound right-hand value `t.x.col`
contributes `"t.col"` (first and last part only), at a concrete run. -/
theorem c4_update_assignments_witness :
    ("t" ++ "." ++ (["x", "col"].getLastD "t")) ∈
      (runVisitor [Statement.Update ⟨["users"], none⟩
        [⟨.ColumnName ["age"], .CompoundIdentifier ["t", "x", "col"]⟩] none none]).columns :=
  (@c4_update_assignments ⟨["users"], none⟩
    [⟨.ColumnName ["age"], .CompoundIdentifier ["t", "x", "col"]⟩] none none
    ⟨.ColumnName ["age"], .CompoundIdentifier ["t", "x", "col"]⟩
    (by decide) (by decide)).2.1 _ rfl

/-- C5: for a successfully inspected single statement, `target_table` is
empty for a SELECT (`Query`), and equals the syntactically determinate
target for INSERT/UPDATE/DELETE — in particular it is non-empty whenever
that target renders non-empty. -/
theorem c5_target_presence {st : Statement} {r : ExtractResult}
    (h : inspectStmts [st] = .completed r) :
    ((∃ q, st = .Query q) → r.target_table = "") ∧
    (∀ t, st.syntacticTarget = some t →
      r.target_table = t ∧ (t ≠ "" → r.target_table ≠ "")) := by
  obtain ⟨hp, hr⟩ := completed_inv h
  have hrt : r.target_table = (runVisitor [st]).target_table := by rw [hr]; rfl
  have h2 := target_visitStatement st {}
  have hrun : runVisitor [st] = visitStatement {} st := rfl
  constructor
  · intro hq
    rw [hrt, hrun, h2.1 hq]
  · intro t ht
    have h3 := h2.2 t ht
    constructor
    · rw [hrt, hrun]
      exact h3
    · intro hne
      rw [hrt, hrun, h3]
      exact hne

/-- C5 witness: a concrete INSERT yields its declared table as the
non-empty target. -/
theorem c5_target_presence_witness :
    (ExtractResult.mk ["users"] [] "users" .INSERT).target_table = "users" ∧
    ("users" ≠ "" →
      (ExtractResult.mk ["users"] [] "users" .INSERT).target_table ≠ "") :=
  (@c5_target_presence (.Insert ["users"] [] none)
    ⟨["users"], [], "users", .INSERT⟩ (by decide)).2 "users" rfl

/-- C7: for an INSERT statement, the query type is INSERT, the declared
insert table is both the target and a member of the table set, and each
declared column `c` contributes `"<table>.<c>"` to the collected column
set. -/
theorem c7_insert {name : ObjectName} {cols : List String} {src : Option Query}
    {r : ExtractResult} (h : inspectStmts [.Insert name cols src] = .completed r) :
    r.query_type = .INSERT ∧ r.target_table = ObjectName.render name ∧
    ObjectName.render name ∈ r.tables ∧
    (∀ c ∈ cols, (ObjectName.render name ++ "." ++ c) ∈
      (runVisitor [.Insert name cols src]).columns) := by
  obtain ⟨hp, hr⟩ := completed_inv h
  refine ⟨?q1, ?q2, ?q3, ?q4⟩
  · rw [hr]
    show (runVisitor [Statement.Insert name cols src]).query_type = _
    show (visitOptQuery (visitRelation (insertArm {} name cols) name) src).query_type = _
    rw [(geq_visitOptQuery _ src).qt, (geq_visitRelation _ name).qt, qt_insertArm]
  · rw [hr]
    show (runVisitor [Statement.Insert name cols src]).target_table = _
    show (visitOptQuery (visitRelation (insertArm {} name cols) name) src).target_table = _
    rw [(geq_visitOptQuery _ src).tt, (geq_visitRelation _ name).tt, target_insertArm]
  · rw [hr, mem_assemble_tables]
    show _ ∈ (visitOptQuery (visitRelation (insertArm {} name cols) name) src).tables
    refine (step_visitOptQuery _ src).tabMem _ ?h3
    refine (step_visitRelation _ name).tabMem _ ?h4
    simp only [insertArm]
    refine (stepFoldl (fun b c => step_addColumn b (ObjectName.render name ++ "." ++ c))
      cols _).tabMem _ ?h5
    show ObjectName.render name ∈ insertStr [] (ObjectName.render name)
    exact mem_insertStr_self [] _
  · intro c hc
    show _ ∈ (visitOptQuery (visitRelation (insertArm {} name cols) name) src).columns
    refine (step_visitOptQuery _ src).colMem _ ?h6
    refine (step_visitRelation _ name).colMem _ ?h7
    simp only [insertArm]
    exact foldlAttain
      (fun v => (ObjectName.render name ++ "." ++ c) ∈ v.columns)
      (fun st c2 => st.addColumn (ObjectName.render name ++ "." ++ c2))
      (fun b a2 hb => (step_addColumn b _).colMem _ hb) cols c hc
      (fun b => mem_insertStr_self _ _) _

/-- C7 witness: `INSERT INTO users (id) ...` qualifies `id` into
`users.id` in the collected column set. -/
theorem c7_insert_witness :
    (ObjectName.render ["users"] ++ "." ++ "id") ∈
      (runVisitor [Statement.Insert ["users"] ["id"] none]).columns :=
  (@c7_insert ["users"] ["id"] none ⟨["users"], ["users.id"], "users", .INSERT⟩
    (by decide)).2.2.2 "id" (by decide)

/-- C9 (counterexample): an unrecognized statement wrapping a nested
`INSERT` — as the parser produces for
`EXPLAIN INSERT INTO users (id) VALUES (1)` — does have classification
side effects: `pre_visit_statement` fires on the nested statement too,
so the result's `query_type` becomes `INSERT` and `target_table`
becomes `"users"`, refuting the claim for unrecognized variants with
nested statement children. -/
theorem c9_other_statements_cex :
    inspectStmts [c9stmt] = .completed ⟨["users"], ["users.id"], "users", .INSERT⟩ ∧
    QueryType.INSERT ≠ QueryType.SELECT ∧ ("users" : String) ≠ "" := by
  exact ⟨by decide, by decide, by decide⟩

mutual

theorem cd_visitStatement {st : Statement} (h : st.isOtherDeepB = true) {s : V}
    (hq : s.query_type = .SELECT) (ht : s.target_table = "") :
    (visitStatement s st).query_type = .SELECT ∧ (visitStatement s st).target_table = "" := by
  cases st with
  | Other es nested =>
    simp only [Statement.isOtherDeepB] at h
    show (visitStatements (es.foldl visitExpr s) nested).query_type = .SELECT ∧
      (visitStatements (es.foldl visitExpr s) nested).target_table = ""
    have hg := geqFoldl geq_visitExpr es s
    exact cd_visitStatements h (hg.qt.trans hq) (hg.tt.trans ht)
  | Query q => simp [Statement.isOtherDeepB] at h
  | Insert name cols src => simp [Statement.isOtherDeepB] at h
  | Update table assigns fr sel => simp [Statement.isOtherDeepB] at h
  | Delete fr sel => simp [Statement.isOtherDeepB] at h

theorem cd_visitStatements {l : List Statement} (h : statementsOtherDeepB l = true) {s : V}
    (hq : s.query_type = .SELECT) (ht : s.target_table = "") :
    (visitStatements s l).query_type = .SELECT ∧ (visitStatements s l).target_table = "" := by
  cases l with
  | nil => exact ⟨hq, ht⟩
  | cons st rest =>
    simp only [statementsOtherDeepB] at h
    have h2 := (Bool.and_eq_true _ _).mp h
    show (visitStatements (visitStatement s st) rest).query_type = .SELECT ∧
      (visitStatements (visitStatement s st) rest).target_table = ""
    have h3 := cd_visitStatement h2.1 hq ht
    exact cd_visitStatements h2.2 h3.1 h3.2

end

/-- C9 (amended): the unrecognized variant's own match arm has no
classification side effect and causes no error — visiting it equals the
generic walk of its expression and nested statement children; and for a
statement list of unrecognized statements none of whose nested
statements (recursively) is a classified variant, the result's
`query_type` stays at its default `SELECT` and `target_table` stays
empty. Nested classified statements (e.g. under `EXPLAIN`) do
re-trigger the classification arms. -/
theorem c9_other_statements {stmts : List Statement} {r : ExtractResult}
    (hother : ∀ st ∈ stmts, st.isOtherDeepB = true)
    (h : inspectStmts stmts = .completed r) :
    r.query_type = .SELECT ∧ r.target_table = "" ∧
    (∀ (s : V) (es : List Expr) (nested : List Statement),
      visitStatement s (.Other es nested) = visitStatements (es.foldl visitExpr s) nested) := by
  obtain ⟨hp, hr⟩ := completed_inv h
  have hP : (runVisitor stmts).query_type = .SELECT ∧ (runVisitor stmts).target_table = "" := by
    refine foldlPresMem (fun v => v.query_type = .SELECT ∧ v.target_table = "")
      visitStatement stmts _ ?he ⟨rfl, rfl⟩
    intro a ha v hv
    exact cd_visitStatement (hother a ha) hv.1 hv.2
  refine ⟨?g1, ?g2, ?g3⟩
  · rw [hr]
    exact hP.1
  · rw [hr]
    exact hP.2
  · intro s es nested
    rfl

/-- C9 witness: a single unrecognized statement with one identifier
child and no nested statements keeps the default classification. -/
theorem c9_other_statements_witness :
    (ExtractResult.mk [] ["x"] "" QueryType.SELECT).query_type = .SELECT ∧
    (ExtractResult.mk [] ["x"] "" QueryType.SELECT).target_table = "" ∧
    (∀ (s : V) (es : List Expr) (nested : List Statement),
      visitStatement s (.Other es nested) = visitStatements (es.foldl visitExpr s) nested) :=
  @c9_other_statements [.Other [.Identifier "x"] []] ⟨[], ["x"], "", .SELECT⟩
    (by
      intro st hst
      rw [List.mem_singleton] at hst
      subst hst
      decide)
    (by decide)

/-- C10 (counterexample): an `UPDATE` whose assignment value is an empty
compound identifier satisfies the claim's precondition (its `Delete`
lists and visited object names are all non-empty), yet the walk still
panics, at `ident.first().unwrap()` in the `Update` arm: the claimed
precondition is not sufficient for totality. -/
theorem c10_unguarded_indexing_cex :
    Statement.claimWfB c10stmt = true ∧ inspectStmts [c10stmt] = RunOutcome.panicked := by
  exact ⟨by decide, by decide⟩

/-- C10 (amended): the unguarded reads are the `Delete` arm's
`tables[0]`, the relation visit's `relation.0[0]`, and additionally the
`Update` arm's `first()/last().unwrap()` on compound assignment values;
under the precondition that all three lists are non-empty the panic
branches are unreachable: the walk sets no panic flag and `inspect`
completes. -/
theorem c10_no_panic {stmts : List Statement} (hw : ∀ st ∈ stmts, st.wfB = true) :
    (runVisitor stmts).panicked = false ∧
    inspectStmts stmts = .completed (assemble (runVisitor stmts)
      (runVisitor stmts).columns (runVisitor stmts).tables) := by
  have hp := np_runVisitor hw
  exact ⟨hp, inspectStmts_eq hp⟩

/-- C10 witness: a wellformed concrete DELETE runs with no panic. -/
theorem c10_no_panic_witness :
    (runVisitor [Statement.Delete (.WithFromKeyword [⟨["users"], none⟩]) none]).panicked
        = false ∧
    inspectStmts [Statement.Delete (.WithFromKeyword [⟨["users"], none⟩]) none] =
      .completed (assemble
        (runVisitor [Statement.Delete (.WithFromKeyword [⟨["users"], none⟩]) none])
        (runVisitor [Statement.Delete (.WithFromKeyword [⟨["users"], none⟩]) none]).columns
        (runVisitor [Statement.Delete (.WithFromKeyword [⟨["users"], none⟩]) none]).tables) :=
  c10_no_panic (by decide)

/-- C6 (counterexample): `INSERT INTO t2 SELECT * FROM t1` contains a
wildcard projection, but the result's `columns` contains no `"*"` entry
at all: the projection arm runs only for a top-level `Query` statement,
and a wildcard projection item is not an expression, so the generic
expression visit never contributes it. -/
theorem c6_wildcard_collapse_cex :
    Statement.hasWildcardB c6stmt = true ∧
    inspectStmts [c6stmt] = .completed ⟨["t1", "t2"], [], "t2", .INSERT⟩ ∧
    (([] : List String).count "*" = 0) := by
  exact ⟨by decide, by decide, by decide⟩

/-- C6 (amended): wildcard projections of the top-level SELECT statement
and wildcard expressions in any visited expression position contribute
exactly one `"*"` entry, however many there are; wildcard projection
items of nested source selects contribute nothing. -/
theorem c6_wildcard_collapse {stmts : List Statement} {st : Statement} {r : ExtractResult}
    (hst : st ∈ stmts) (hw : st.starB = true)
    (h : inspectStmts stmts = .completed r) :
    r.columns.count "*" = 1 := by
  obtain ⟨hp, hr⟩ := completed_inv h
  have hmem : "*" ∈ (runVisitor stmts).columns := star_runVisitor hst hw
  have hnd : (runVisitor stmts).columns.Nodup := (nodup_runVisitor stmts).1
  have hcount : (runVisitor stmts).columns.count "*" = 1 :=
    List.count_eq_one_of_mem hnd hmem
  rw [hr]
  show (sortStrings ((runVisitor stmts).columns.map
    (rewriteColumn (runVisitor stmts).aliases))).count "*" = 1
  rw [count_sortStrings, count_star_map_rewrite, hcount]

/-- C6 witness: two wildcards in a top-level SELECT produce exactly one
`"*"` entry. -/
theorem c6_wildcard_collapse_witness :
    (ExtractResult.mk ["users"] ["*"] "" QueryType.SELECT).columns.count "*" = 1 :=
  @c6_wildcard_collapse [c6stmt2] c6stmt2 ⟨["users"], ["*"], "", .SELECT⟩
    (List.mem_cons_self _ _) (by decide) (by decide)

-- Validation of the embedding against the repository's unit-test
-- scenarios (`SELECT id FROM users WHERE age > 30`, etc.).

example :
    inspectStmts [.Query ⟨.Select ⟨[.UnnamedExpr (.Identifier "id")],
      [⟨⟨["users"], none⟩, []⟩], some (.BinaryOp (.Identifier "age") .Value)⟩⟩] =
    .completed ⟨["users"], ["age", "id"], "", .SELECT⟩ := by decide

example :
    inspectStmts [.Insert ["users"] ["id", "name"] none] =
    .completed ⟨["users"], ["users.id", "users.name"], "users", .INSERT⟩ := by decide

example :
    inspectStmts [.Update ⟨["users"], none⟩ [⟨.ColumnName ["age"], .Value⟩] none none] =
    .completed ⟨["users"], ["users.age"], "users", .UPDATE⟩ := by decide

example :
    inspectStmts [.Delete (.WithFromKeyword [⟨["users"], none⟩])
      (some (.BinaryOp (.Identifier "age") .Value))] =
    .completed ⟨["users"], ["age"], "users", .DELETE⟩ := by decide

example :
    inspectStmts [.Query ⟨.Select
      ⟨[.UnnamedExpr (.Identifier "address"), .UnnamedExpr (.Identifier "name")],
       [⟨⟨["table1"], none⟩, [⟨⟨["table2"], none⟩,
         some (.BinaryOp (.CompoundIdentifier ["table1", "id"])
           (.CompoundIdentifier ["table2", "id"]))⟩]⟩], none⟩⟩] =
    .completed ⟨["table1", "table2"], ["address", "name", "table1.id", "table2.id"],
      "", .SELECT⟩ := by decide

example :
    inspectStmts [.Query ⟨.Select ⟨[.UnnamedExpr (.Identifier "id"),
      .ExprWithAlias (.Identifier "name") "name2"],
      [⟨⟨["users"], none⟩, []⟩], some (.BinaryOp (.Identifier "age") .Value)⟩⟩] =
    .completed ⟨["users"], ["age", "id", "name"], "", .SELECT⟩ := by decide

end SqlInspector

